import Mathlib

/-!
Verification development for the halftime ad-insertion pipeline.

Shallow embedding of the Python sources:
  backend/videos/transcript_parser.py   (subtitle parsing, gap detection, timestamps)
  backend/videos/ad_placement.py        (buffer-window derivation, candidate selection)
  backend/dashboard/app/api/v1/videos/process.py   (background splice, status endpoint)
  backend/dashboard/app/api/v1/videos/playlist.py  (playlist endpoint)
  backend/dashboard/app/api/v1/analytics.py        (event tracking endpoints)

Python floats are modelled as exact rationals (ℚ), Python ints as ℤ/ℕ,
strings as Lean `String` (a list of characters), and fallible code returns
`Option`.  Where the float rounding itself decides a claim — the timestamp
round trip of C4 — IEEE-754 binary64 rounding is modelled explicitly
(`roundB64` and the `float_`-prefixed pipeline below); everywhere else the
properties at issue are structural and insensitive to rounding.  All
definitions are executable so that closed instances evaluate by `decide` /
`rfl` / `norm_num`.
-/

namespace Halftime

/-! ## Basic character / decimal-rendering utilities

These model Python's `\d` character class, `str(int)` decimal rendering and
the zero-padded f-string formats `f"{n:02d}"` / `f"{n:03d}"`.
-/

/-- The character class `\d` restricted to ASCII, as matched by the regexes
in `transcript_parser.py` (all inputs there are ASCII digits). -/
def isDig (c : Char) : Bool :=
  '0' ≤ c && c ≤ '9'

/-- Numeric value of a digit character. -/
def dval (c : Char) : ℕ :=
  c.toNat - 48

/-- The digit character for `d < 10`. -/
def dCh (d : ℕ) : Char :=
  Char.ofNat (48 + d)

/-- Fuel-driven decimal rendering of a natural number (little helper for
`natDec`; fuel is always sufficient, structural so the kernel can reduce it). -/
def natDecAux : ℕ → ℕ → List Char
  | 0, _ => []
  | f + 1, n => if n < 10 then [dCh n] else natDecAux f (n / 10) ++ [dCh (n % 10)]

/-- Decimal rendering of a natural number, as Python's `str` on a
nonnegative `int`. -/
def natDec (n : ℕ) : String :=
  String.mk (natDecAux (n + 1) n)

/-- Decimal rendering of an integer, as Python's `str(int)`. -/
def intDec (n : ℤ) : String :=
  if n < 0 then "-" ++ natDec n.natAbs else natDec n.toNat

/-- Left-pad a string with zeros to width `w` (Python `str.zfill`). -/
def zfill (w : ℕ) (s : String) : String :=
  String.mk (List.replicate (w - s.length) '0') ++ s

/-- Python's zero-padded integer format `f"{n:0Wd}"`: the sign, when present,
counts towards the width and precedes the padding. -/
def padInt (w : ℕ) (n : ℤ) : String :=
  if n < 0 then "-" ++ zfill (w - 1) (natDec n.natAbs) else zfill w (natDec n.toNat)

/-- Python's `%` on rationals: `x % y = x - y * floor (x / y)` (result has
the sign of the divisor; all divisors in the embedded code are positive). -/
def pyMod (x y : ℚ) : ℚ :=
  x - y * ⌊x / y⌋

/-! ## transcript_parser.py: `seconds_to_timestamp` (lines 286-292)

```python
def seconds_to_timestamp(seconds: float) -> str:
    hours = int(seconds // 3600)
    minutes = int((seconds % 3600) // 60)
    secs = int(seconds % 60)
    ms = int((seconds % 1) * 1000)
    return f"{hours:02d}:{minutes:02d}:{secs:02d},{ms:03d}"
```

`int()` truncates toward zero; every truncated quantity below is nonnegative
(a Python `%` with positive divisor is nonnegative), so truncation is floor.
-/

/-- Embeds `seconds_to_timestamp` over exact rationals. -/
def seconds_to_timestamp (seconds : ℚ) : String :=
  let hours : ℤ := ⌊seconds / 3600⌋
  let minutes : ℤ := ⌊pyMod seconds 3600 / 60⌋
  let secs : ℤ := ⌊pyMod seconds 60⌋
  let ms : ℤ := ⌊pyMod seconds 1 * 1000⌋
  padInt 2 hours ++ ":" ++ padInt 2 minutes ++ ":" ++ padInt 2 secs ++ "," ++ padInt 3 ms

/-! ## transcript_parser.py: `timestamp_to_seconds` (lines 295-305)

```python
def timestamp_to_seconds(timestamp: str) -> float:
    timestamp = timestamp.replace(',', '.')
    match = re.match(r'(\d{1,2}):(\d{2}):(\d{2})\.?(\d{3})?', timestamp)
    if match:
        hours, minutes, seconds = ...
        ms = int(match.group(4)) if match.group(4) else 0
        return hours * 3600 + minutes * 60 + seconds + ms / 1000
    raise ValueError(...)
```

The regex is a prefix match.  Its only choice point is the greedy
`\d{1,2}`: the one-digit alternative requires the second character to be
`:`, which is impossible when the second character is itself a digit, so
the greedy two-digit reading never backtracks and the match function below
needs no alternation.
-/

/-- Replaces `,` by `.` (`str.replace(',', '.')` character-wise). -/
def commaDot (c : Char) : Char :=
  if c = ',' then '.' else c

/-- Matches `:(\d{2}):(\d{2})` after the hours field, returning
`(hours, minutes, seconds, rest)`. -/
def hmsTail (h : ℕ) : List Char → Option (ℕ × ℕ × ℕ × List Char)
  | ':' :: m1 :: m2 :: ':' :: s1 :: s2 :: rest =>
    if isDig m1 && isDig m2 && isDig s1 && isDig s2 then
      some (h, 10 * dval m1 + dval m2, 10 * dval s1 + dval s2, rest)
    else none
  | _ => none

/-- Matches the prefix `(\d{1,2}):(\d{2}):(\d{2})`. -/
def parseHMS : List Char → Option (ℕ × ℕ × ℕ × List Char)
  | c1 :: c2 :: rest =>
    if isDig c1 then
      if isDig c2 then hmsTail (10 * dval c1 + dval c2) rest
      else hmsTail (dval c1) (c2 :: rest)
    else none
  | _ => none

/-- Value of `(\d{3})?` at the head of the input: three leading digits or 0. -/
def ms3 : List Char → ℕ
  | a :: b :: c :: _ => if isDig a && isDig b && isDig c then 100 * dval a + 10 * dval b + dval c else 0
  | _ => 0

/-- Value of the optional millisecond suffix `\.?(\d{3})?`. -/
def optMs3 (cs : List Char) : ℕ :=
  match cs with
  | '.' :: rest => ms3 rest
  | rest => ms3 rest

/-- Embeds `timestamp_to_seconds`; `none` models the `ValueError`. -/
def timestamp_to_seconds (timestamp : String) : Option ℚ :=
  match parseHMS (timestamp.data.map commaDot) with
  | some (h, m, s, rest) => some ((h : ℚ) * 3600 + m * 60 + s + (optMs3 rest : ℚ) / 1000)
  | none => none

/-- The canonical text of a well-formed `HH:MM:SS,mmm` timestamp with field
values `h`, `m`, `s`, `ms`. -/
def tsRender (h m s ms : ℕ) : String :=
  String.mk [dCh (h / 10), dCh (h % 10), ':', dCh (m / 10), dCh (m % 10), ':',
    dCh (s / 10), dCh (s % 10), ',', dCh (ms / 100), dCh (ms / 10 % 10), dCh (ms % 10)]

/-! ### Evaluation lemmas for digits, padding and floors -/

theorem commaDot_dCh (d : ℕ) (hd : d < 10) : commaDot (dCh d) = dCh d := by
  revert hd; revert d; decide

theorem commaDot_colon : commaDot ':' = ':' := by decide

theorem commaDot_comma : commaDot ',' = '.' := by decide

theorem isDig_dCh (d : ℕ) (hd : d < 10) : isDig (dCh d) = true := by
  revert hd; revert d; decide

theorem dval_dCh (d : ℕ) (hd : d < 10) : dval (dCh d) = d := by
  revert hd; revert d; decide

theorem pad2_eval (n : ℕ) (hn : n < 100) :
    padInt 2 (n : ℤ) = String.mk [dCh (n / 10), dCh (n % 10)] := by
  revert hn; revert n; decide

set_option maxRecDepth 100000 in
set_option maxHeartbeats 1000000 in
theorem pad3_eval (n : ℕ) (hn : n < 1000) :
    padInt 3 (n : ℤ) = String.mk [dCh (n / 100), dCh (n / 10 % 10), dCh (n % 10)] := by
  revert hn; revert n; decide

theorem qfloor_mul_add (k : ℚ) (hk : 0 < k) (a : ℤ) (r : ℚ) (h0 : 0 ≤ r) (h1 : r < k) :
    ⌊((a : ℚ) * k + r) / k⌋ = a := by
  rw [Int.floor_eq_iff]
  constructor
  · rw [le_div_iff hk]; nlinarith
  · rw [div_lt_iff hk]; nlinarith

/-- Symbolic evaluation of `timestamp_to_seconds` on a canonical rendered
timestamp. -/
theorem timestamp_to_seconds_render (h m s ms : ℕ)
    (hh : h < 100) (hm : m < 100) (hs : s < 100) (hms : ms < 1000) :
    timestamp_to_seconds (tsRender h m s ms) =
      some ((h : ℚ) * 3600 + (m : ℚ) * 60 + (s : ℚ) + (ms : ℚ) / 1000) := by
  have l1 : (tsRender h m s ms).data.map commaDot =
      [dCh (h / 10), dCh (h % 10), ':', dCh (m / 10), dCh (m % 10), ':',
       dCh (s / 10), dCh (s % 10), '.', dCh (ms / 100), dCh (ms / 10 % 10), dCh (ms % 10)] := by
    show List.map commaDot [dCh (h / 10), dCh (h % 10), ':', dCh (m / 10), dCh (m % 10), ':',
      dCh (s / 10), dCh (s % 10), ',', dCh (ms / 100), dCh (ms / 10 % 10), dCh (ms % 10)] = _
    simp only [List.map_cons, List.map_nil, commaDot_colon, commaDot_comma,
      commaDot_dCh (h / 10) (by omega), commaDot_dCh (h % 10) (by omega),
      commaDot_dCh (m / 10) (by omega), commaDot_dCh (m % 10) (by omega),
      commaDot_dCh (s / 10) (by omega), commaDot_dCh (s % 10) (by omega),
      commaDot_dCh (ms / 100) (by omega), commaDot_dCh (ms / 10 % 10) (by omega),
      commaDot_dCh (ms % 10) (by omega)]
  simp only [timestamp_to_seconds, l1, parseHMS, hmsTail, optMs3, ms3,
    isDig_dCh (h / 10) (by omega), isDig_dCh (h % 10) (by omega),
    isDig_dCh (m / 10) (by omega), isDig_dCh (m % 10) (by omega),
    isDig_dCh (s / 10) (by omega), isDig_dCh (s % 10) (by omega),
    isDig_dCh (ms / 100) (by omega), isDig_dCh (ms / 10 % 10) (by omega),
    isDig_dCh (ms % 10) (by omega),
    dval_dCh (h / 10) (by omega), dval_dCh (h % 10) (by omega),
    dval_dCh (m / 10) (by omega), dval_dCh (m % 10) (by omega),
    dval_dCh (s / 10) (by omega), dval_dCh (s % 10) (by omega),
    dval_dCh (ms / 100) (by omega), dval_dCh (ms / 10 % 10) (by omega),
    dval_dCh (ms % 10) (by omega), Bool.and_self, if_true]
  rw [Nat.div_add_mod h 10, Nat.div_add_mod m 10, Nat.div_add_mod s 10,
    show 100 * (ms / 100) + 10 * (ms / 10 % 10) + ms % 10 = ms by omega]

/-- Symbolic evaluation of `seconds_to_timestamp` on a value composed of
in-range timestamp fields. -/
theorem seconds_to_timestamp_eval (h m s ms : ℕ) (hm : m < 60) (hs : s < 60) (hms : ms < 1000) :
    seconds_to_timestamp ((h : ℚ) * 3600 + (m : ℚ) * 60 + (s : ℚ) + (ms : ℚ) / 1000) =
      padInt 2 (h : ℤ) ++ ":" ++ padInt 2 (m : ℤ) ++ ":" ++ padInt 2 (s : ℤ) ++ "," ++
        padInt 3 (ms : ℤ) := by
  have hq1000 : (0 : ℚ) < 1000 := by norm_num
  have hf0 : (0 : ℚ) ≤ (ms : ℚ) / 1000 := by positivity
  have hf1 : (ms : ℚ) / 1000 < 1 := by
    rw [div_lt_one hq1000]; exact_mod_cast hms
  have hsQ : (s : ℚ) ≤ 59 := by exact_mod_cast Nat.lt_succ_iff.mp hs
  have hmQ : (m : ℚ) ≤ 59 := by exact_mod_cast Nat.lt_succ_iff.mp hm
  have e3600 : ⌊((h : ℚ) * 3600 + (m : ℚ) * 60 + (s : ℚ) + (ms : ℚ) / 1000) / 3600⌋ = (h : ℤ) := by
    have := qfloor_mul_add 3600 (by norm_num) (h : ℤ)
      ((m : ℚ) * 60 + (s : ℚ) + (ms : ℚ) / 1000) (by positivity) (by linarith)
    rw [← this]; congr 1; push_cast; ring
  have emod3600 : pyMod ((h : ℚ) * 3600 + (m : ℚ) * 60 + (s : ℚ) + (ms : ℚ) / 1000) 3600 =
      (m : ℚ) * 60 + (s : ℚ) + (ms : ℚ) / 1000 := by
    rw [pyMod, e3600]; push_cast; ring
  have e60' : ⌊((m : ℚ) * 60 + (s : ℚ) + (ms : ℚ) / 1000) / 60⌋ = (m : ℤ) := by
    have := qfloor_mul_add 60 (by norm_num) (m : ℤ)
      ((s : ℚ) + (ms : ℚ) / 1000) (by positivity) (by linarith)
    rw [← this]; congr 1; push_cast; ring
  have e60 : ⌊((h : ℚ) * 3600 + (m : ℚ) * 60 + (s : ℚ) + (ms : ℚ) / 1000) / 60⌋ =
      60 * (h : ℤ) + (m : ℤ) := by
    have := qfloor_mul_add 60 (by norm_num) (60 * (h : ℤ) + (m : ℤ))
      ((s : ℚ) + (ms : ℚ) / 1000) (by positivity) (by linarith)
    rw [← this]; congr 1; push_cast; ring
  have emod60 : pyMod ((h : ℚ) * 3600 + (m : ℚ) * 60 + (s : ℚ) + (ms : ℚ) / 1000) 60 =
      (s : ℚ) + (ms : ℚ) / 1000 := by
    rw [pyMod, e60]; push_cast; ring
  have es : ⌊(s : ℚ) + (ms : ℚ) / 1000⌋ = (s : ℤ) := by
    have := qfloor_mul_add 1 (by norm_num) (s : ℤ) ((ms : ℚ) / 1000) hf0 hf1
    rw [← this]; congr 1; push_cast; ring
  have e1 : ⌊((h : ℚ) * 3600 + (m : ℚ) * 60 + (s : ℚ) + (ms : ℚ) / 1000) / 1⌋ =
      3600 * (h : ℤ) + 60 * (m : ℤ) + (s : ℤ) := by
    have := qfloor_mul_add 1 (by norm_num) (3600 * (h : ℤ) + 60 * (m : ℤ) + (s : ℤ))
      ((ms : ℚ) / 1000) hf0 hf1
    rw [← this]; congr 1; push_cast; ring
  have emod1 : pyMod ((h : ℚ) * 3600 + (m : ℚ) * 60 + (s : ℚ) + (ms : ℚ) / 1000) 1 =
      (ms : ℚ) / 1000 := by
    rw [pyMod, e1]; push_cast; ring
  have ems : ⌊(ms : ℚ) / 1000 * 1000⌋ = (ms : ℤ) := by
    rw [div_mul_cancel₀ _ (by norm_num : (1000 : ℚ) ≠ 0)]
    exact_mod_cast Int.floor_natCast ms
  simp only [seconds_to_timestamp, e3600, emod3600, e60', emod60, es, emod1, ems]

/-- Over EXACT rational arithmetic the round trip
`seconds_to_timestamp (timestamp_to_seconds s) = s` holds for every
well-formed `HH:MM:SS,mmm` string (the values of `tsRender` with in-range
fields).  This is the idealization of the source's float pipeline: it shows
the algorithm itself is correct, so the round-trip failure established in
`C4_float_roundtrip_failure` below is caused by IEEE-754 rounding alone. -/
theorem timestamp_roundtrip_exact (h m s ms : ℕ)
    (hh : h < 100) (hm : m < 60) (hs : s < 60) (hms : ms < 1000) :
    (timestamp_to_seconds (tsRender h m s ms)).map seconds_to_timestamp =
      some (tsRender h m s ms) := by
  rw [timestamp_to_seconds_render h m s ms hh (by omega) (by omega) hms]
  rw [Option.map_some']
  rw [seconds_to_timestamp_eval h m s ms hm hs hms]
  rw [pad2_eval h hh, pad2_eval m (by omega), pad2_eval s (by omega), pad3_eval ms hms]
  rfl

/-! ## IEEE-754 binary64 arithmetic, for the timestamp round trip

The source computes with Python floats (binary64).  For C4 the rounding is
decisive, so this section models it exactly: a binary64 value is the
rational `±m · 2^(e−52)` with `2^52 ≤ m < 2^53`, and every arithmetic
operation rounds its exact result to the nearest representable value, ties
to even.  The magnitudes evaluated here are far from overflow and
subnormal range, so exponent clamping never fires and is not modelled.

`roundB64` needs the floor of the base-2 logarithm; `natLog2` computes it
with fuel (structural recursion), and `qlog2` extends it to positive
rationals via numerator and denominator bit lengths.
-/

/-- Two to an integer power, as a rational. -/
def pow2z (e : ℤ) : ℚ :=
  if 0 ≤ e then (2 ^ e.toNat : ℚ) else 1 / (2 ^ (-e).toNat : ℚ)

theorem pow2z_eq_zpow (e : ℤ) : pow2z e = (2 : ℚ) ^ e := by
  rw [pow2z]
  by_cases h : 0 ≤ e
  · rw [if_pos h, ← zpow_natCast (2 : ℚ), Int.toNat_of_nonneg h]
  · rw [if_neg h, ← zpow_natCast (2 : ℚ), Int.toNat_of_nonneg (by omega : (0 : ℤ) ≤ -e),
      one_div, ← zpow_neg, neg_neg]

theorem pow2z_pos (e : ℤ) : 0 < pow2z e := by
  rw [pow2z_eq_zpow]
  exact zpow_pos (by norm_num) e

theorem pow2z_le_pow2z {e f : ℤ} (h : e ≤ f) : pow2z e ≤ pow2z f := by
  rw [pow2z_eq_zpow, pow2z_eq_zpow]
  exact zpow_le_zpow_right₀ (by norm_num) h

theorem pow2z_lt_pow2z {e f : ℤ} (h : e < f) : pow2z e < pow2z f := by
  rw [pow2z_eq_zpow, pow2z_eq_zpow]
  exact zpow_lt_zpow_right₀ (by norm_num) h

/-- Fuel-driven floor of `log2` (the fuel bounds the recursion depth and is
always sufficient at `fuel = n`). -/
def log2fuel : ℕ → ℕ → ℕ
  | 0, _ => 0
  | f + 1, n => if n ≤ 1 then 0 else log2fuel f (n / 2) + 1

/-- Floor of the base-2 logarithm of a positive natural number. -/
def natLog2 (n : ℕ) : ℕ :=
  log2fuel n n

theorem log2fuel_bounds :
    ∀ f n : ℕ, 1 ≤ n → n ≤ f → 2 ^ log2fuel f n ≤ n ∧ n < 2 ^ (log2fuel f n + 1) := by
  intro f
  induction f with
  | zero => intro n h1 h2; omega
  | succ f ih =>
    intro n h1 h2
    rw [show log2fuel (f + 1) n = if n ≤ 1 then 0 else log2fuel f (n / 2) + 1 from rfl]
    by_cases hn : n ≤ 1
    · rw [if_pos hn]
      constructor
      · have h0 : (2 : ℕ) ^ 0 = 1 := pow_zero 2
        omega
      · have h0 : (2 : ℕ) ^ (0 + 1) = 2 := by norm_num
        omega
    · rw [if_neg hn]
      obtain ⟨ih1, ih2⟩ := ih (n / 2) (by omega) (by omega)
      constructor
      · have e1 : 2 ^ (log2fuel f (n / 2) + 1) = 2 * 2 ^ log2fuel f (n / 2) := by ring
        rw [e1]; omega
      · have e2 : 2 ^ (log2fuel f (n / 2) + 1 + 1) = 2 * 2 ^ (log2fuel f (n / 2) + 1) := by ring
        rw [e2]; omega

theorem natLog2_bounds (n : ℕ) (h : 1 ≤ n) :
    2 ^ natLog2 n ≤ n ∧ n < 2 ^ (natLog2 n + 1) :=
  log2fuel_bounds n n h (le_refl n)

/-- Floor of the base-2 logarithm of a positive rational. -/
def qlog2 (q : ℚ) : ℤ :=
  if pow2z ((natLog2 q.num.toNat : ℤ) - (natLog2 q.den : ℤ)) ≤ q then
    (natLog2 q.num.toNat : ℤ) - (natLog2 q.den : ℤ)
  else (natLog2 q.num.toNat : ℤ) - (natLog2 q.den : ℤ) - 1

theorem qlog2_sandwich (q : ℚ) (hq : 0 < q) :
    pow2z (qlog2 q) ≤ q ∧ q < pow2z (qlog2 q + 1) := by
  have hnumZ : 0 < q.num := Rat.num_pos.mpr hq
  have hnum1 : 1 ≤ q.num.toNat := by omega
  have hden1 : 1 ≤ q.den := q.den_pos
  obtain ⟨ha1, ha2⟩ := natLog2_bounds _ hnum1
  obtain ⟨hb1, hb2⟩ := natLog2_bounds _ hden1
  have hdenQ : (0 : ℚ) < (q.den : ℚ) := by exact_mod_cast hden1
  have hq_eq : q * (q.den : ℚ) = (q.num.toNat : ℚ) := by
    have h1 : ((q.num.toNat : ℤ) : ℚ) = (q.num : ℚ) := by
      rw [Int.toNat_of_nonneg (le_of_lt hnumZ)]
    have h3 : (q.num : ℚ) = (q.num.toNat : ℚ) := by exact_mod_cast h1.symm
    calc q * (q.den : ℚ) = (q.num : ℚ) / (q.den : ℚ) * (q.den : ℚ) := by
          rw [Rat.num_div_den q]
      _ = (q.num : ℚ) := div_mul_cancel₀ _ (ne_of_gt hdenQ)
      _ = (q.num.toNat : ℚ) := h3
  have hA1 : (2 : ℚ) ^ natLog2 q.num.toNat ≤ (q.num.toNat : ℚ) := by exact_mod_cast ha1
  have hA2 : (q.num.toNat : ℚ) < 2 ^ (natLog2 q.num.toNat + 1) := by exact_mod_cast ha2
  have hB1 : (2 : ℚ) ^ natLog2 q.den ≤ (q.den : ℚ) := by exact_mod_cast hb1
  have hB2 : (q.den : ℚ) < 2 ^ (natLog2 q.den + 1) := by exact_mod_cast hb2
  have hlow : pow2z ((natLog2 q.num.toNat : ℤ) - (natLog2 q.den : ℤ) - 1) < q := by
    rw [pow2z_eq_zpow,
      show ((natLog2 q.num.toNat : ℤ) - (natLog2 q.den : ℤ) - 1) =
        (natLog2 q.num.toNat : ℤ) - ((natLog2 q.den : ℤ) + 1) by ring,
      zpow_sub₀ (by norm_num : (2 : ℚ) ≠ 0)]
    rw [div_lt_iff (by positivity)]
    have e1 : ((2 : ℚ) ^ ((natLog2 q.num.toNat : ℤ))) = 2 ^ natLog2 q.num.toNat := by
      rw [zpow_natCast]
    have e2 : ((2 : ℚ) ^ ((natLog2 q.den : ℤ) + 1)) = 2 ^ (natLog2 q.den + 1) := by
      rw [show ((natLog2 q.den : ℤ) + 1) = ((natLog2 q.den + 1 : ℕ) : ℤ) by push_cast; ring,
        zpow_natCast]
    rw [e1, e2]
    calc (2 : ℚ) ^ natLog2 q.num.toNat ≤ (q.num.toNat : ℚ) := hA1
      _ = q * (q.den : ℚ) := hq_eq.symm
      _ < q * 2 ^ (natLog2 q.den + 1) := by
          exact mul_lt_mul_of_pos_left hB2 hq
  have hup : q < pow2z ((natLog2 q.num.toNat : ℤ) - (natLog2 q.den : ℤ) + 1) := by
    rw [pow2z_eq_zpow,
      show ((natLog2 q.num.toNat : ℤ) - (natLog2 q.den : ℤ) + 1) =
        ((natLog2 q.num.toNat : ℤ) + 1) - (natLog2 q.den : ℤ) by ring,
      zpow_sub₀ (by norm_num : (2 : ℚ) ≠ 0)]
    rw [lt_div_iff (by positivity)]
    have e1 : ((2 : ℚ) ^ ((natLog2 q.num.toNat : ℤ) + 1)) = 2 ^ (natLog2 q.num.toNat + 1) := by
      rw [show ((natLog2 q.num.toNat : ℤ) + 1) = ((natLog2 q.num.toNat + 1 : ℕ) : ℤ) by
        push_cast; ring, zpow_natCast]
    have e2 : ((2 : ℚ) ^ ((natLog2 q.den : ℤ))) = 2 ^ natLog2 q.den := by rw [zpow_natCast]
    rw [e1, e2]
    calc q * (2 : ℚ) ^ natLog2 q.den ≤ q * (q.den : ℚ) := by
          exact mul_le_mul_of_nonneg_left hB1 (le_of_lt hq)
      _ = (q.num.toNat : ℚ) := hq_eq
      _ < 2 ^ (natLog2 q.num.toNat + 1) := hA2
  rw [qlog2]
  by_cases hcase : pow2z ((natLog2 q.num.toNat : ℤ) - (natLog2 q.den : ℤ)) ≤ q
  · rw [if_pos hcase]
    exact ⟨hcase, hup⟩
  · rw [if_neg hcase]
    refine ⟨le_of_lt hlow, ?_⟩
    rw [show ((natLog2 q.num.toNat : ℤ) - (natLog2 q.den : ℤ) - 1 + 1) =
      (natLog2 q.num.toNat : ℤ) - (natLog2 q.den : ℤ) by ring]
    exact lt_of_not_le hcase

/-- The floor-log2 of a positive rational is determined by any power-of-two
sandwich. -/
theorem qlog2_eq (q : ℚ) (e : ℤ) (hq : 0 < q)
    (h1 : pow2z e ≤ q) (h2 : q < pow2z (e + 1)) : qlog2 q = e := by
  obtain ⟨g1, g2⟩ := qlog2_sandwich q hq
  by_contra hne
  rcases lt_or_gt_of_ne hne with h | h
  · exact absurd (lt_of_lt_of_le g2 (pow2z_le_pow2z (by omega))) (not_lt.mpr h1)
  · exact absurd (lt_of_lt_of_le h2 (pow2z_le_pow2z (by omega))) (not_lt.mpr g1)

/-- Round to the nearest integer, ties to even. -/
def rhe (s : ℚ) : ℤ :=
  if s - ⌊s⌋ < 1 / 2 then ⌊s⌋
  else if 1 / 2 < s - ⌊s⌋ then ⌊s⌋ + 1
  else if ⌊s⌋ % 2 = 0 then ⌊s⌋ else ⌊s⌋ + 1

/-- Round a rational to the nearest binary64 value (ties to even; the
overflow and subnormal regimes of IEEE-754 are outside the magnitudes this
file evaluates and are not modelled). -/
def roundB64 (q : ℚ) : ℚ :=
  if q = 0 then 0
  else if q < 0 then -((rhe (-q * pow2z (52 - qlog2 (-q))) : ℚ) * pow2z (qlog2 (-q) - 52))
  else (rhe (q * pow2z (52 - qlog2 q)) : ℚ) * pow2z (qlog2 q - 52)

theorem roundB64_zero : roundB64 0 = 0 := by
  rw [roundB64, if_pos rfl]

theorem qfloor_eval (q : ℚ) (n : ℤ) (h1 : (n : ℚ) ≤ q) (h2 : q < n + 1) : ⌊q⌋ = n := by
  rw [Int.floor_eq_iff]
  exact ⟨h1, h2⟩

theorem rhe_eval_lt (s : ℚ) (n : ℤ) (h1 : (n : ℚ) ≤ s) (h2 : s < n + 1)
    (hfr : s - n < 1 / 2) : rhe s = n := by
  have hf : ⌊s⌋ = n := qfloor_eval s n h1 h2
  rw [rhe, hf, if_pos hfr]

theorem rhe_eval_gt (s : ℚ) (n : ℤ) (h1 : (n : ℚ) ≤ s) (h2 : s < n + 1)
    (hfr : 1 / 2 < s - n) : rhe s = n + 1 := by
  have hf : ⌊s⌋ = n := qfloor_eval s n h1 h2
  rw [rhe, hf, if_neg (by linarith), if_pos hfr]

/-- Evaluation rule for `roundB64` at a positive rational with a known
binade and a known rounded mantissa. -/
theorem roundB64_eval (q : ℚ) (e m : ℤ) (h0 : 0 < q)
    (h1 : pow2z e ≤ q) (h2 : q < pow2z (e + 1))
    (hm : rhe (q * pow2z (52 - e)) = m) :
    roundB64 q = (m : ℚ) * pow2z (e - 52) := by
  rw [roundB64, if_neg (ne_of_gt h0), if_neg (not_lt.mpr (le_of_lt h0)),
    qlog2_eq q e h0 h1 h2, hm]

/-! ### Python float operations

Each arithmetic operation on doubles rounds its exact result once
(IEEE-754 basic operations are correctly rounded).  `math.fmod` — Python's
float `%` for these operands — returns the true remainder, which is always
exactly representable, so it does not round.  CPython's float `//` is
`float_divmod`: the exact remainder, a rounded subtraction and a rounded
division, a floor, and a half-ulp correction; the sign-adjustment branch
never fires for the nonnegative operands evaluated here and is omitted. -/

def fadd (x y : ℚ) : ℚ := roundB64 (x + y)

def fsub (x y : ℚ) : ℚ := roundB64 (x - y)

def fmul (x y : ℚ) : ℚ := roundB64 (x * y)

def fdiv (x y : ℚ) : ℚ := roundB64 (x / y)

/-- Python float `%` with a positive divisor (exact). -/
def fmodf (x y : ℚ) : ℚ := x - y * ⌊x / y⌋

/-- CPython float `//` for nonnegative operands. -/
def ffloordiv (x y : ℚ) : ℚ :=
  if 1 / 2 < fdiv (fsub x (fmodf x y)) y - ⌊fdiv (fsub x (fmodf x y)) y⌋ then
    (⌊fdiv (fsub x (fmodf x y)) y⌋ : ℚ) + 1
  else (⌊fdiv (fsub x (fmodf x y)) y⌋ : ℚ)

/-! ### The float-level timestamp pipeline of transcript_parser.py

`timestamp_to_seconds`'s regex work is exact (field extraction from the
string); the returned value `hours * 3600 + minutes * 60 + seconds +
ms / 1000` evaluates the first three terms in exact Python `int`
arithmetic, `ms / 1000` as one rounded float division, and the final
`int + float` as an exact int-to-double conversion (the values are far
below `2^53`) followed by one rounded addition.
`seconds_to_timestamp`'s four fields apply `//`, `%`, `*` and `int()`
(truncation, equal to the floor for these nonnegative values) as in the
source. -/

/-- The double `timestamp_to_seconds` returns for the well-formed timestamp
with fields `h`, `m`, `s`, `ms`. -/
def float_timestamp_to_seconds (h m s ms : ℕ) : ℚ :=
  fadd ((h : ℚ) * 3600 + (m : ℚ) * 60 + (s : ℚ)) (fdiv (ms : ℚ) 1000)

/-- `seconds_to_timestamp` over binary64 arithmetic. -/
def float_seconds_to_timestamp (seconds : ℚ) : String :=
  padInt 2 ⌊ffloordiv seconds 3600⌋ ++ ":" ++
    padInt 2 ⌊ffloordiv (fmodf seconds 3600) 60⌋ ++ ":" ++
    padInt 2 ⌊fmodf seconds 60⌋ ++ "," ++
    padInt 3 ⌊fmul (fmodf seconds 1) 1000⌋

/-! ### Evaluating the float pipeline at the failing input `00:00:59,001` -/

theorem fdiv_1_1000 : fdiv (1 : ℚ) 1000 = 4611686018427388 / 2 ^ 62 := by
  rw [fdiv]
  have h1 : pow2z (-10) ≤ (1 : ℚ) / 1000 := by
    rw [pow2z]; norm_num [show Int.toNat 10 = 10 from rfl]
  have h2 : (1 : ℚ) / 1000 < pow2z (-10 + 1) := by
    rw [pow2z]; norm_num [show Int.toNat 9 = 9 from rfl]
  have hm : rhe ((1 : ℚ) / 1000 * pow2z (52 - (-10))) = 4611686018427388 := by
    rw [show pow2z (52 - (-10)) = 2 ^ 62 by
      rw [pow2z]; norm_num [show Int.toNat 62 = 62 from rfl]]
    rw [rhe_eval_gt ((1 : ℚ) / 1000 * 2 ^ 62) 4611686018427387
      (by norm_num) (by norm_num) (by norm_num)]
    norm_num
  have h := roundB64_eval ((1 : ℚ) / 1000) (-10) 4611686018427388 (by norm_num) h1 h2 hm
  rw [h, show ((-10 : ℤ) - 52) = -62 by norm_num, pow2z]
  norm_num [show Int.toNat 62 = 62 from rfl]

theorem fadd_59 : fadd 59 ((4611686018427388 : ℚ) / 2 ^ 62) = 8303652550452707 / 2 ^ 47 := by
  rw [fadd]
  have h1 : pow2z 5 ≤ (59 : ℚ) + 4611686018427388 / 2 ^ 62 := by
    rw [pow2z]; norm_num [show Int.toNat 5 = 5 from rfl]
  have h2 : (59 : ℚ) + 4611686018427388 / 2 ^ 62 < pow2z (5 + 1) := by
    rw [pow2z]; norm_num [show Int.toNat 6 = 6 from rfl]
  have hm : rhe (((59 : ℚ) + 4611686018427388 / 2 ^ 62) * pow2z (52 - 5)) =
      8303652550452707 := by
    rw [show pow2z (52 - 5) = 2 ^ 47 by
      rw [pow2z]; norm_num [show Int.toNat 47 = 47 from rfl]]
    rw [rhe_eval_lt (((59 : ℚ) + 4611686018427388 / 2 ^ 62) * 2 ^ 47) 8303652550452707
      (by norm_num) (by norm_num) (by norm_num)]
  have h := roundB64_eval _ 5 8303652550452707 (by norm_num) h1 h2 hm
  rw [h, show ((5 : ℤ) - 52) = -47 by norm_num, pow2z]
  norm_num [show Int.toNat 47 = 47 from rfl]

theorem float_render_59001 :
    float_seconds_to_timestamp ((8303652550452707 : ℚ) / 2 ^ 47) = "00:00:59,000" := by
  have hm3600 : fmodf ((8303652550452707 : ℚ) / 2 ^ 47) 3600 =
      (8303652550452707 : ℚ) / 2 ^ 47 := by
    rw [fmodf, qfloor_eval ((8303652550452707 : ℚ) / 2 ^ 47 / 3600) 0
      (by norm_num) (by norm_num)]
    norm_num
  have hm60 : fmodf ((8303652550452707 : ℚ) / 2 ^ 47) 60 =
      (8303652550452707 : ℚ) / 2 ^ 47 := by
    rw [fmodf, qfloor_eval ((8303652550452707 : ℚ) / 2 ^ 47 / 60) 0
      (by norm_num) (by norm_num)]
    norm_num
  have hfloorv : ⌊(8303652550452707 : ℚ) / 2 ^ 47⌋ = 59 :=
    qfloor_eval _ 59 (by norm_num) (by norm_num)
  have hsub : fsub ((8303652550452707 : ℚ) / 2 ^ 47) ((8303652550452707 : ℚ) / 2 ^ 47) = 0 := by
    rw [fsub, show (8303652550452707 : ℚ) / 2 ^ 47 - (8303652550452707 : ℚ) / 2 ^ 47 = 0
      by ring, roundB64_zero]
  have hdiv0 : ∀ y : ℚ, fdiv 0 y = 0 := by
    intro y
    rw [fdiv, zero_div, roundB64_zero]
  have hfd3600 : ffloordiv ((8303652550452707 : ℚ) / 2 ^ 47) 3600 = 0 := by
    rw [ffloordiv, hm3600, hsub, hdiv0]
    norm_num
  have hfd60 : ffloordiv ((8303652550452707 : ℚ) / 2 ^ 47) 60 = 0 := by
    rw [ffloordiv, hm60, hsub, hdiv0]
    norm_num
  have hm1 : fmodf ((8303652550452707 : ℚ) / 2 ^ 47) 1 = (140737488355 : ℚ) / 2 ^ 47 := by
    rw [fmodf, div_one, hfloorv]
    norm_num
  have hmul : fmul ((140737488355 : ℚ) / 2 ^ 47) 1000 = 9007199254720000 / 2 ^ 53 := by
    rw [fmul]
    have h1 : pow2z (-1) ≤ (140737488355 : ℚ) / 2 ^ 47 * 1000 := by
      rw [pow2z]; norm_num [show Int.toNat 1 = 1 from rfl]
    have h2 : (140737488355 : ℚ) / 2 ^ 47 * 1000 < pow2z (-1 + 1) := by
      rw [pow2z]; norm_num [show Int.toNat 0 = 0 from rfl]
    have hm : rhe ((140737488355 : ℚ) / 2 ^ 47 * 1000 * pow2z (52 - (-1))) =
        9007199254720000 := by
      rw [show pow2z (52 - (-1)) = 2 ^ 53 by
        rw [pow2z]; norm_num [show Int.toNat 53 = 53 from rfl]]
      rw [rhe_eval_lt ((140737488355 : ℚ) / 2 ^ 47 * 1000 * 2 ^ 53) 9007199254720000
        (by norm_num) (by norm_num) (by norm_num)]
    have h := roundB64_eval _ (-1) 9007199254720000 (by norm_num) h1 h2 hm
    rw [h, show ((-1 : ℤ) - 52) = -53 by norm_num, pow2z]
    norm_num [show Int.toNat 53 = 53 from rfl]
  have hms0 : ⌊(9007199254720000 : ℚ) / 2 ^ 53⌋ = 0 :=
    qfloor_eval _ 0 (by norm_num) (by norm_num)
  rw [float_seconds_to_timestamp, hfd3600, hm3600, hfd60, hm60, hfloorv, hm1, hmul, hms0,
    Int.floor_zero]
  decide

/-- C4 (code bug): under the binary64 arithmetic the source actually runs,
the round trip fails at the well-formed input `00:00:59,001`:
`timestamp_to_seconds` returns the double `8303652550452707 / 2^47`
(`0.001` rounds to `4611686018427388 / 2^62`, and adding 59 rounds again),
and `seconds_to_timestamp` re-renders that value as `00:00:59,000`, because
`(seconds % 1) * 1000 = 9007199254720000 / 2^53 < 1` and `int()` truncates
it to 0.  `timestamp_roundtrip_exact` shows the same pipeline satisfies the
round trip over exact arithmetic, so the spec states the intent and the
float code is the slip. -/
theorem C4_float_roundtrip_failure :
    float_timestamp_to_seconds 0 0 59 1 = 8303652550452707 / 2 ^ 47 ∧
      float_seconds_to_timestamp ((8303652550452707 : ℚ) / 2 ^ 47) = "00:00:59,000" ∧
      tsRender 0 0 59 1 = "00:00:59,001" ∧
      float_seconds_to_timestamp (float_timestamp_to_seconds 0 0 59 1) ≠ tsRender 0 0 59 1 := by
  have hparse : float_timestamp_to_seconds 0 0 59 1 = 8303652550452707 / 2 ^ 47 := by
    have hargs : float_timestamp_to_seconds 0 0 59 1 = fadd 59 (fdiv 1 1000) := by
      rw [float_timestamp_to_seconds]
      norm_num
    rw [hargs, fdiv_1_1000, fadd_59]
  refine ⟨hparse, float_render_59001, by decide, ?_⟩
  rw [hparse, float_render_59001]
  decide

/-! ## transcript_parser.py: data model (lines 13-40)

```python
@dataclass
class SubtitleEntry:
    index: int
    start_time: float
    end_time: float
    text: str

@dataclass
class DialogueGap:
    start_time: float
    end_time: float
    duration: float
    context_before: str
    context_after: str
```
-/

structure SubtitleEntry where
  index : ℤ
  start_time : ℚ
  end_time : ℚ
  text : String
deriving DecidableEq, Inhabited, Repr

structure DialogueGap where
  start_time : ℚ
  end_time : ℚ
  duration : ℚ
  context_before : String
  context_after : String
deriving DecidableEq, Inhabited, Repr

/-! ## transcript_parser.py: `parse_srt_time` (lines 58-77) and
`parse_vtt_time` (lines 79-98)

`parse_srt_time` replaces `,` by `.`, tries
`(\d{1,2}):(\d{2}):(\d{2})\.(\d{3})`, then `(\d{1,2}):(\d{2}):(\d{2})`
without milliseconds, and raises on failure.  `parse_vtt_time` strips, tries
`(\d{1,2}):(\d{2}):(\d{2})\.(\d{3})`, then the short form
`(\d{1,2}):(\d{2})\.(\d{3})`.  As for `timestamp_to_seconds`, the greedy
`\d{1,2}` never usefully backtracks because the one-digit alternative would
require a digit to equal `:`.
-/

/-- Python's `\s` test for the whitespace the embedded inputs contain. -/
def isWs (c : Char) : Bool :=
  c = ' ' || c = '\t' || c = '\n' || c = '\r'

/-- Python's `str.strip()` on a character list. -/
def pyStrip (cs : List Char) : List Char :=
  ((cs.dropWhile isWs).reverse.dropWhile isWs).reverse

/-- Matches `:(\d{2})` after the minutes field of the short VTT form. -/
def ms2Tail (m : ℕ) : List Char → Option (ℕ × ℕ × List Char)
  | ':' :: s1 :: s2 :: rest =>
    if isDig s1 && isDig s2 then some (m, 10 * dval s1 + dval s2, rest) else none
  | _ => none

/-- Matches the prefix `(\d{1,2}):(\d{2})` of the short VTT form. -/
def parseMS2 : List Char → Option (ℕ × ℕ × List Char)
  | c1 :: c2 :: rest =>
    if isDig c1 then
      if isDig c2 then ms2Tail (10 * dval c1 + dval c2) rest
      else ms2Tail (dval c1) (c2 :: rest)
    else none
  | _ => none

/-- The required millisecond suffix `\.(\d{3})` at the head of the input. -/
def reqMs3 : List Char → Option ℕ
  | '.' :: a :: b :: c :: _ =>
    if isDig a && isDig b && isDig c then some (100 * dval a + 10 * dval b + dval c) else none
  | _ => none

/-- Embeds `parse_srt_time`; `none` models the `ValueError`. -/
def parse_srt_time (time_str : String) : Option ℚ :=
  let cs := time_str.data.map commaDot
  match parseHMS cs with
  | some (h, m, s, rest) =>
    match reqMs3 rest with
    | some ms => some ((h : ℚ) * 3600 + m * 60 + s + (ms : ℚ) / 1000)
    | none => some ((h : ℚ) * 3600 + m * 60 + s)
  | none => none

/-- Second alternative of `parse_vtt_time`: the short form `MM:SS.mmm`. -/
def vttShort (cs : List Char) : Option ℚ :=
  match parseMS2 cs with
  | some (m, s, rest) =>
    match reqMs3 rest with
    | some ms => some ((m : ℚ) * 60 + s + (ms : ℚ) / 1000)
    | none => none
  | none => none

/-- Embeds `parse_vtt_time`; `none` models the `ValueError`. -/
def parse_vtt_time (time_str : String) : Option ℚ :=
  let cs := pyStrip time_str.data
  match parseHMS cs with
  | some (h, m, s, rest) =>
    match reqMs3 rest with
    | some ms => some ((h : ℚ) * 3600 + m * 60 + s + (ms : ℚ) / 1000)
    | none => vttShort cs
  | none => vttShort cs

/-! ## transcript_parser.py: `_parse_srt` (lines 119-162) and
`_parse_vtt` (lines 164-216)

Block splitting `re.split(r'\n\s*\n', content.strip())` is modelled by
splitting the stripped content into lines and grouping maximal runs of
non-blank lines: the regex separator is one newline, optional whitespace
(possibly containing further newlines, as `\s*` is greedy), and a final
newline, which on `\n`-separated text is exactly a maximal run of one or
more whitespace-only line separations.
-/

/-- Splits a character list at `'\n'` (Python `str.split('\n')`; the result
is never empty and empty chunks are kept). -/
def splitLinesCs (cs : List Char) : List (List Char) :=
  cs.foldr
    (fun c acc =>
      if c = '\n' then [] :: acc
      else
        match acc with
        | g :: gs => (c :: g) :: gs
        | [] => [[c]])
    [[]]

/-- A whitespace-only (blank) line. -/
def isBlankLine (l : List Char) : Bool :=
  l.all isWs

/-- Groups consecutive non-blank lines (helper for `contentBlocks`). -/
def groupNonBlank : List (List Char) → List (List (List Char))
  | [] => []
  | l :: ls =>
    let gs := groupNonBlank ls
    if isBlankLine l then [] :: gs
    else
      match gs with
      | g :: gt => (l :: g) :: gt
      | [] => [[l]]

/-- The cue blocks of `re.split(r'\n\s*\n', content.strip())`. -/
def contentBlocks (content : List Char) : List (List Char) :=
  (((groupNonBlank (splitLinesCs (pyStrip content))).filter (· ≠ [])).map
    (List.intercalate ['\n']))

/-- Python `int(str)` on a stripped string: an optional sign followed by at
least one digit; `none` models the `ValueError`. -/
def digitsVal (ds : List Char) : Option ℕ :=
  if ds ≠ [] && ds.all isDig then some (ds.foldl (fun a c => 10 * a + dval c) 0) else none

/-- Python `int(str)`; the argument is already stripped at the call site. -/
def parseIntCs : List Char → Option ℤ
  | '+' :: ds => (digitsVal ds).map (fun n => (n : ℤ))
  | '-' :: ds => (digitsVal ds).map (fun n => -(n : ℤ))
  | ds => (digitsVal ds).map (fun n => (n : ℤ))

/-- Fuel-driven scanner for `re.sub(r'<[^>]+>', '', text)`: on `<`, when a
later `>` exists with at least one character in between, the whole tag is
removed; otherwise the `<` is kept and scanning resumes after it.  The fuel
is always sufficient (each step consumes at least one character). -/
def removeTagsAux : ℕ → List Char → List Char
  | 0, _ => []
  | _ + 1, [] => []
  | f + 1, c :: rest =>
    if c = '<' then
      let t := rest.takeWhile (· ≠ '>')
      if t ≠ [] && rest.drop t.length ≠ [] then removeTagsAux f (rest.drop (t.length + 1))
      else c :: removeTagsAux f rest
    else c :: removeTagsAux f rest

/-- Embeds `re.sub(r'<[^>]+>', '', text)`. -/
def removeTags (cs : List Char) : List Char :=
  removeTagsAux (cs.length + 1) cs

/-- The cue text built from the lines after the timestamp line:
`' '.join(lines)` then `strip`, tag removal and the (vacuous, as the lines
no longer contain newlines) `replace('\n', ' ')`. -/
def cleanText (ls : List (List Char)) : String :=
  String.mk ((removeTags (pyStrip (List.intercalate [' '] ls))).map
    (fun c => if c = '\n' then ' ' else c))

/-- Matches one group `(\d{1,2}:\d{2}:\d{2}[,\.]\d{3})` of the SRT
timestamp-line regex, returning the matched text and the rest (helper for
`srtTimeGroup`). -/
def srtTimeGroupTail : List Char → Option (List Char × List Char)
  | ':' :: m1 :: m2 :: ':' :: s1 :: s2 :: sep :: a :: b :: c :: rest =>
    if isDig m1 && isDig m2 && isDig s1 && isDig s2 && (sep = ',' || sep = '.') &&
        isDig a && isDig b && isDig c then
      some ([':', m1, m2, ':', s1, s2, sep, a, b, c], rest)
    else none
  | _ => none

/-- Matches one group `(\d{1,2}:\d{2}:\d{2}[,\.]\d{3})`. -/
def srtTimeGroup : List Char → Option (List Char × List Char)
  | c1 :: c2 :: rest =>
    if isDig c1 then
      if isDig c2 then (srtTimeGroupTail rest).map (fun p => (c1 :: c2 :: p.1, p.2))
      else (srtTimeGroupTail (c2 :: rest)).map (fun p => (c1 :: p.1, p.2))
    else none
  | _ => none

/-- Matches `\s*-->\s*` between the two timestamp groups. -/
def matchArrow (cs : List Char) : Option (List Char) :=
  match cs.dropWhile isWs with
  | '-' :: '-' :: '>' :: rest => some (rest.dropWhile isWs)
  | _ => none

/-- The SRT timestamp-line regex
`(\d{1,2}:\d{2}:\d{2}[,\.]\d{3})\s*-->\s*(\d{1,2}:\d{2}:\d{2}[,\.]\d{3})`
(a prefix match: trailing text is allowed), returning the two groups. -/
def srtTimeLine (cs : List Char) : Option (String × String) :=
  (srtTimeGroup cs).bind fun p1 =>
    (matchArrow p1.2).bind fun r2 =>
      (srtTimeGroup r2).map fun p2 => (String.mk p1.1, String.mk p2.1)

/-- Parses one SRT block (index line, timestamp line, text lines); `none`
models every `continue` branch of the loop body. -/
def parseSrtBlock (blockCs : List Char) : Option SubtitleEntry :=
  match splitLinesCs (pyStrip blockCs) with
  | l0 :: l1 :: rest =>
    if rest = [] then none
    else
      match parseIntCs (pyStrip l0) with
      | none => none
      | some idx =>
        match srtTimeLine (pyStrip l1) with
        | none => none
        | some (g1, g2) =>
          match parse_srt_time g1, parse_srt_time g2 with
          | some st, some en => some ⟨idx, st, en, cleanText rest⟩
          | _, _ => none
  | _ => none

/-- Embeds `_parse_srt`: parse each block, skipping failures, then sort by
`start_time` (Python's `sorted` is stable, as is `List.mergeSort`). -/
def parse_srt (content : String) : List SubtitleEntry :=
  ((contentBlocks content.data).filterMap parseSrtBlock).mergeSort
    (fun a b => decide (a.start_time ≤ b.start_time))

/-- Finds the first `\n\n` and returns what follows (the non-greedy `.*?\n\n`
of the `WEBVTT` header regex with `re.DOTALL`). -/
def dropThroughNN : List Char → Option (List Char)
  | '\n' :: '\n' :: rest => some rest
  | _ :: rest => dropThroughNN rest
  | [] => none

/-- Embeds `re.sub(r'^WEBVTT.*?\n\n', '', content, flags=re.DOTALL)`: when the
content starts with `WEBVTT`, drop everything through the first blank-line
separation; with no match the content is unchanged. -/
def stripVttHeader (cs : List Char) : List Char :=
  if cs.take 6 = "WEBVTT".data then
    match dropThroughNN (cs.drop 6) with
    | some rest => rest
    | none => cs
  else cs

/-- Python's `'-->' in line`. -/
def containsArrow : List Char → Bool
  | '-' :: '-' :: '>' :: _ => true
  | _ :: rest => containsArrow rest
  | [] => false

/-- The character class `[\d:\.]` of the VTT timestamp-line regex. -/
def isVttClass (c : Char) : Bool :=
  isDig c || c = ':' || c = '.'

/-- The VTT timestamp-line regex `([\d:\.]+)\s*-->\s*([\d:\.]+)` (a prefix
match), returning the two groups.  The greedy class never backtracks:
dropped class characters could match neither `\s*` nor `-`. -/
def vttTimeLine (cs : List Char) : Option (String × String) :=
  let g1 := cs.takeWhile isVttClass
  if g1 = [] then none
  else
    match matchArrow (cs.drop g1.length) with
    | none => none
    | some r2 =>
      let g2 := r2.takeWhile isVttClass
      if g2 = [] then none else some (String.mk g1, String.mk g2)

/-- Parses one VTT cue block into `(start_time, end_time, text)`; `none`
models every `continue` branch (the cue index is assigned by the caller). -/
def parseVttBlock (blockCs : List Char) : Option (ℚ × ℚ × String) :=
  let lines := splitLinesCs (pyStrip blockCs)
  if lines = [] then none
  else
    match lines.findIdx? containsArrow with
    | none => none
    | some i =>
      match vttTimeLine (pyStrip (lines.getD i [])) with
      | none => none
      | some (g1, g2) =>
        match parse_vtt_time g1, parse_vtt_time g2 with
        | some st, some en => some (st, en, cleanText (lines.drop (i + 1)))
        | _, _ => none

/-- Embeds `_parse_vtt`: strip the header, parse each block (skipping
failures) with indices `1, 2, …` in appearance order, then sort by
`start_time`. -/
def parse_vtt (content : String) : List SubtitleEntry :=
  let parsed := (contentBlocks (stripVttHeader content.data)).filterMap parseVttBlock
  let entries := parsed.enum.map (fun p => SubtitleEntry.mk ((p.1 : ℤ) + 1) p.2.1 p.2.2.1 p.2.2.2)
  entries.mergeSort (fun a b => decide (a.start_time ≤ b.start_time))

/-- Embeds `parse_file` (lines 100-117): dispatch on the (lowercased) `.vtt`
extension or the `WEBVTT` header marker; the file contents are passed in. -/
def parse_file (filepath : String) (content : String) : List SubtitleEntry :=
  if (filepath.map Char.toLower).endsWith ".vtt" || content.startsWith "WEBVTT" then
    parse_vtt content
  else parse_srt content

/-- Sorting a cue list by `start_time` yields a list pairwise ordered by
`start_time`. -/
theorem sortedByStart (l : List SubtitleEntry) :
    (l.mergeSort (fun a b => decide (a.start_time ≤ b.start_time))).Pairwise
      (fun a b => a.start_time ≤ b.start_time) := by
  have h := @List.sorted_mergeSort SubtitleEntry
    (fun a b : SubtitleEntry => decide (a.start_time ≤ b.start_time))
    (fun a b c hab hbc => by
      simp only [decide_eq_true_eq] at hab hbc ⊢; exact le_trans hab hbc)
    (fun a b => by
      simp only [Bool.or_eq_true, decide_eq_true_eq]; exact le_total a.start_time b.start_time)
    l
  exact h.imp (fun hab => of_decide_eq_true hab)

/-- An SRT file whose two cues overlap: the first spans `[0, 5)` and the
second `[1, 2)`. -/
def overlapSrt : String :=
  "1\n00:00:00,000 --> 00:00:05,000\nHello\n\n2\n00:00:01,000 --> 00:00:02,000\nWorld"

/-- The two cues `overlapSrt` parses to, in output order. -/
def overlapCue0 : SubtitleEntry := ⟨1, 0, 5, "Hello"⟩

def overlapCue1 : SubtitleEntry := ⟨2, 1, 2, "World"⟩

theorem parse_srt_overlapSrt : parse_srt overlapSrt = [overlapCue0, overlapCue1] := by
  have hb : contentBlocks overlapSrt.data =
      ["1\n00:00:00,000 --> 00:00:05,000\nHello".data,
       "2\n00:00:01,000 --> 00:00:02,000\nWorld".data] := by decide
  have hsplit1 : splitLinesCs (pyStrip "1\n00:00:00,000 --> 00:00:05,000\nHello".data) =
      ["1".data, "00:00:00,000 --> 00:00:05,000".data, "Hello".data] := by decide
  have hsplit2 : splitLinesCs (pyStrip "2\n00:00:01,000 --> 00:00:02,000\nWorld".data) =
      ["2".data, "00:00:01,000 --> 00:00:02,000".data, "World".data] := by decide
  have hint1 : parseIntCs (pyStrip "1".data) = some 1 := by decide
  have hint2 : parseIntCs (pyStrip "2".data) = some 2 := by decide
  have htl1 : srtTimeLine (pyStrip "00:00:00,000 --> 00:00:05,000".data) =
      some ("00:00:00,000", "00:00:05,000") := by decide
  have htl2 : srtTimeLine (pyStrip "00:00:01,000 --> 00:00:02,000".data) =
      some ("00:00:01,000", "00:00:02,000") := by decide
  have hc1 : cleanText ["Hello".data] = "Hello" := by decide
  have hc2 : cleanText ["World".data] = "World" := by decide
  have ht0 : parse_srt_time "00:00:00,000" = some 0 := by
    simp [parse_srt_time, parseHMS, hmsTail, reqMs3, isDig, dval, commaDot]
  have ht5 : parse_srt_time "00:00:05,000" = some 5 := by
    simp [parse_srt_time, parseHMS, hmsTail, reqMs3, isDig, dval, commaDot]
  have ht1 : parse_srt_time "00:00:01,000" = some 1 := by
    simp [parse_srt_time, parseHMS, hmsTail, reqMs3, isDig, dval, commaDot]
  have ht2 : parse_srt_time "00:00:02,000" = some 2 := by
    simp [parse_srt_time, parseHMS, hmsTail, reqMs3, isDig, dval, commaDot]
  have hblk1 : parseSrtBlock "1\n00:00:00,000 --> 00:00:05,000\nHello".data = some overlapCue0 := by
    simp [parseSrtBlock, hsplit1, hint1, htl1, hc1, ht0, ht5, overlapCue0]
  have hblk2 : parseSrtBlock "2\n00:00:01,000 --> 00:00:02,000\nWorld".data = some overlapCue1 := by
    simp [parseSrtBlock, hsplit2, hint2, htl2, hc2, ht1, ht2, overlapCue1]
  rw [parse_srt, hb, List.filterMap_cons, List.filterMap_cons, List.filterMap_nil, hblk1, hblk2]
  apply List.mergeSort_of_sorted
  simp [overlapCue0, overlapCue1]

/-- C5 counterexample: on `overlapSrt` the parser returns two cues with
`C[0].end_time = 5 > 1 = C[1].start_time`, so parsed cue lists are not
non-overlapping: the claimed invariant `C[i].end ≤ C[i+1].start` fails. -/
theorem C5_nonoverlap_counterexample :
    parse_srt overlapSrt = [overlapCue0, overlapCue1] ∧
      ¬ (overlapCue0.end_time ≤ overlapCue1.start_time) := by
  refine ⟨parse_srt_overlapSrt, ?_⟩
  rw [overlapCue0, overlapCue1]
  norm_num

/-- C5 amended: after parsing (SRT or VTT), the cue list is sorted by
`start_time` — `C[i].start_time ≤ C[i+1].start_time` for all `i` — but
adjacent cues may overlap (`C[i].end ≤ C[i+1].start` need not hold; the
parser performs no deduplication or overlap removal). -/
theorem C5_cues_sorted_by_start (filepath content : String) :
    (parse_file filepath content).Pairwise (fun a b => a.start_time ≤ b.start_time) := by
  rw [parse_file]
  split
  · exact sortedByStart _
  · exact sortedByStart _

/-! ## transcript_parser.py: `find_gaps` (lines 218-257)

```python
for i in range(len(self.entries) - 1):
    current = self.entries[i]
    next_entry = self.entries[i + 1]
    gap_duration = next_entry.start_time - current.end_time
    if gap_duration >= min_duration:
        context_before_entries = self.entries[max(0, i-2):i+1]
        context_after_entries = self.entries[i+1:min(len(self.entries), i+4)]
        ...
self.gaps = sorted(gaps, key=lambda g: g.duration, reverse=True)
```
-/

/-- Python list slice `l[a:b]` for nonnegative in-order bounds. -/
def pySlice (l : List α) (a b : ℕ) : List α :=
  (l.take b).drop a

/-- Python `' '.join(e.text for e in es)`. -/
def joinTexts (es : List SubtitleEntry) : String :=
  String.intercalate " " (es.map (·.text))

/-- The body of the `find_gaps` loop at index `i` (`max 0 (i - 2)` is the
source's `max(0, i-2)`; over ℕ the truncated subtraction already clamps,
the `max` is kept for fidelity). -/
def gapAtSrc (entries : List SubtitleEntry) (min_duration : ℚ) (i : ℕ) : Option DialogueGap :=
  match entries[i]?, entries[i + 1]? with
  | some current, some next_entry =>
    let gap_duration := next_entry.start_time - current.end_time
    if min_duration ≤ gap_duration then
      some ⟨current.end_time, next_entry.start_time, gap_duration,
        joinTexts (pySlice entries (max 0 (i - 2)) (i + 1)),
        joinTexts (pySlice entries (i + 1) (min entries.length (i + 4)))⟩
    else none
  | _, _ => none

/-- Embeds `find_gaps`: one candidate gap per adjacent pair, then
`sorted(gaps, key=lambda g: g.duration, reverse=True)` (stable descending
sort). -/
def find_gaps (entries : List SubtitleEntry) (min_duration : ℚ) : List DialogueGap :=
  ((List.range (entries.length - 1)).filterMap (gapAtSrc entries min_duration)).mergeSort
    (fun a b => decide (b.duration ≤ a.duration))

/-! ### The claimed characterisation of gap detection, written from the
spec's words: one gap per adjacent pair at distance ≥ τ, whose contexts
concatenate the cue texts at positions `[i−2, i]` and `[i+1, i+3]` bounded
to the array ends. -/

/-- The texts of the cues at positions `[lo, hi]`, bounded to the ends of
the cue array. -/
def cueTextsAt (entries : List SubtitleEntry) (lo hi : ℕ) : List String :=
  ((List.range (hi + 1)).filter (fun j => lo ≤ j)).filterMap
    (fun j => (entries[j]?).map (·.text))

/-- The gap the spec prescribes for the adjacent pair at positions
`(i, i+1)`. -/
def specGapAt (entries : List SubtitleEntry) (i : ℕ) : DialogueGap :=
  let prev := entries.getD i default
  let next := entries.getD (i + 1) default
  ⟨prev.end_time, next.start_time, next.start_time - prev.end_time,
    String.intercalate " " (cueTextsAt entries (i - 2) i),
    String.intercalate " " (cueTextsAt entries (i + 1) (i + 3))⟩

/-- The gaps the spec prescribes: exactly the adjacent pairs whose inter-cue
distance is at least `τ`, in position order. -/
def specGapList (entries : List SubtitleEntry) (τ : ℚ) : List DialogueGap :=
  (((List.range (entries.length - 1)).filter (fun i =>
    τ ≤ (entries.getD (i + 1) default).start_time - (entries.getD i default).end_time)).map
    (specGapAt entries))

/-! ### List bookkeeping lemmas -/

theorem enumFrom_append (l₁ l₂ : List α) (n : ℕ) :
    (l₁ ++ l₂).enumFrom n = l₁.enumFrom n ++ l₂.enumFrom (n + l₁.length) := by
  induction l₁ generalizing n with
  | nil => simp
  | cons a l ih =>
    simp only [List.cons_append, List.enumFrom_cons, ih (n + 1), List.length_cons]
    rw [show n + (l.length + 1) = n + 1 + l.length by omega]

theorem enum_append (l₁ l₂ : List α) :
    (l₁ ++ l₂).enum = l₁.enum ++ l₂.enumFrom l₁.length := by
  show List.enumFrom 0 (l₁ ++ l₂) = List.enumFrom 0 l₁ ++ List.enumFrom l₁.length l₂
  rw [enumFrom_append, Nat.zero_add]

/-- Looking every index of `range k` up in `L` collects exactly the indexed
prefix `(L.take k).enum`. -/
theorem filterMap_range_getElem (L : List α) (g : ℕ → α → β) (k : ℕ) :
    (List.range k).filterMap (fun j => (L[j]?).map (g j)) =
      (L.take k).enum.map (fun p => g p.1 p.2) := by
  induction k with
  | zero => rfl
  | succ k ih =>
    rw [List.range_succ, List.filterMap_append, ih]
    by_cases hk : k < L.length
    · have e1 : List.filterMap (fun j => (L[j]?).map (g j)) [k] = [g k L[k]] := by
        simp [List.getElem?_eq_getElem hk]
      rw [e1, List.take_succ, List.getElem?_eq_getElem hk]
      rw [Option.toList_some, enum_append, List.map_append]
      simp [List.length_take, Nat.min_eq_left (Nat.le_of_lt hk)]
    · have hk' : L.length ≤ k := Nat.le_of_not_lt hk
      have e1 : List.filterMap (fun j => (L[j]?).map (g j)) [k] = [] := by
        simp [List.getElem?_eq_none hk']
      have e2 : L.take (k + 1) = L.take k := by
        rw [List.take_of_length_le hk', List.take_of_length_le (by omega)]
      rw [e1, e2, List.append_nil]

theorem filter_range_le (lo n : ℕ) :
    (List.range n).filter (fun j => decide (lo ≤ j)) = List.range' lo (n - lo) := by
  induction n with
  | zero => simp
  | succ n ih =>
    rw [List.range_succ, List.filter_append, ih]
    by_cases h : lo ≤ n
    · rw [show n + 1 - lo = (n - lo) + 1 by omega, List.range'_concat]
      simp [h, Nat.add_sub_cancel' h]
    · rw [Nat.sub_eq_zero_of_le (by omega), Nat.sub_eq_zero_of_le (by omega)]
      simp [h]

theorem take_min_length (l : List α) (k : ℕ) : l.take (min l.length k) = l.take k := by
  by_cases h : l.length ≤ k
  · rw [Nat.min_eq_left h, List.take_of_length_le h, List.take_of_length_le (le_refl _)]
  · rw [Nat.min_eq_right (Nat.le_of_not_le h)]

/-- `cueTextsAt` computes the texts of the Python slice the source takes. -/
theorem cueTextsAt_eq (l : List SubtitleEntry) (lo hi : ℕ) :
    cueTextsAt l lo hi = ((l.take (hi + 1)).drop lo).map SubtitleEntry.text := by
  rw [cueTextsAt, filter_range_le, List.range'_eq_map_range, List.filterMap_map]
  have step : ∀ j, ((fun j => (l[j]?).map SubtitleEntry.text) ∘ (lo + ·)) j =
      ((l.drop lo)[j]?).map ((fun _ (a : SubtitleEntry) => a.text) j) := by
    intro j
    simp [List.getElem?_drop]
  rw [List.filterMap_congr (fun j _ => step j), filterMap_range_getElem]
  rw [List.drop_take]
  show List.map (SubtitleEntry.text ∘ Prod.snd)
    (List.enumFrom 0 ((List.drop lo l).take (hi + 1 - lo))) = _
  rw [← List.map_map SubtitleEntry.text Prod.snd, List.enumFrom_map_snd]

/-- `filterMap` of a function that is pointwise a guarded `some` is a
`filter` followed by a `map`. -/
theorem filterMap_eq_map_filter_of {l : List ι} {f : ι → Option β} {p : ι → Bool} {g : ι → β}
    (h : ∀ i ∈ l, f i = if p i then some (g i) else none) :
    l.filterMap f = (l.filter p).map g := by
  induction l with
  | nil => rfl
  | cons a t ih =>
    rw [List.filterMap_cons, List.filter_cons]
    have ha := h a (List.mem_cons_self a t)
    have ht := ih (fun i hi => h i (List.mem_cons_of_mem a hi))
    by_cases hp : p a = true
    · rw [ha, if_pos hp, if_pos hp, List.map_cons, ht]
    · rw [ha, if_neg hp, if_neg hp, ht]

/-- The unsorted gap collection of `find_gaps` is exactly the spec's gap
list, in adjacent-pair order. -/
theorem gapAtSrc_filterMap_eq (entries : List SubtitleEntry) (τ : ℚ) :
    (List.range (entries.length - 1)).filterMap (gapAtSrc entries τ) =
      specGapList entries τ := by
  rw [specGapList]
  apply filterMap_eq_map_filter_of
  intro i hi
  have hi' : i < entries.length - 1 := List.mem_range.mp hi
  have h1 : i < entries.length := by omega
  have h2 : i + 1 < entries.length := by omega
  have g1 : entries.getD i default = entries[i] := by
    rw [List.getD_eq_getElem?_getD, List.getElem?_eq_getElem h1, Option.getD_some]
  have g2 : entries.getD (i + 1) default = entries[i + 1] := by
    rw [List.getD_eq_getElem?_getD, List.getElem?_eq_getElem h2, Option.getD_some]
  rw [gapAtSrc, List.getElem?_eq_getElem h1, List.getElem?_eq_getElem h2]
  show (if τ ≤ entries[i + 1].start_time - entries[i].end_time then _ else none) = _
  rw [specGapAt, g1, g2]
  by_cases hcond : τ ≤ entries[i + 1].start_time - entries[i].end_time
  · rw [if_pos hcond, if_pos (decide_eq_true hcond)]
    have hbefore : joinTexts (pySlice entries (max 0 (i - 2)) (i + 1)) =
        String.intercalate " " (cueTextsAt entries (i - 2) i) := by
      rw [cueTextsAt_eq, joinTexts, pySlice, Nat.zero_max]
    have hafter : joinTexts (pySlice entries (i + 1) (min entries.length (i + 4))) =
        String.intercalate " " (cueTextsAt entries (i + 1) (i + 3)) := by
      rw [cueTextsAt_eq, joinTexts, pySlice, take_min_length]
    rw [hbefore, hafter]
  · rw [if_neg hcond, if_neg (by simpa using hcond)]

/-- C6: gap detection emits exactly one `Gap(prev.end, next.start,
next.start − prev.end)` per adjacent pair at inter-cue distance ≥ τ, with
`context_before` the concatenation of the cue texts at positions `[i−2, i]`
and `context_after` at `[i+1, i+3]` bounded to the array ends, returned in
descending order of duration; every emitted gap has
`duration = end − start ≥ τ`. -/
theorem C6_find_gaps_characterisation (entries : List SubtitleEntry) (τ : ℚ) :
    (find_gaps entries τ).Perm (specGapList entries τ) ∧
      (find_gaps entries τ).Pairwise (fun a b => b.duration ≤ a.duration) ∧
      ∀ g ∈ find_gaps entries τ, g.duration = g.end_time - g.start_time ∧ τ ≤ g.duration := by
  have hperm : (find_gaps entries τ).Perm (specGapList entries τ) := by
    rw [find_gaps]
    exact (List.mergeSort_perm _ _).trans (by rw [gapAtSrc_filterMap_eq])
  refine ⟨hperm, ?_, ?_⟩
  · rw [find_gaps]
    have h := @List.sorted_mergeSort DialogueGap
      (fun a b : DialogueGap => decide (b.duration ≤ a.duration))
      (fun a b c hab hbc => by
        simp only [decide_eq_true_eq] at hab hbc ⊢; exact le_trans hbc hab)
      (fun a b => by
        simp only [Bool.or_eq_true, decide_eq_true_eq]; exact le_total b.duration a.duration)
      ((List.range (entries.length - 1)).filterMap (gapAtSrc entries τ))
    exact h.imp (fun hab => of_decide_eq_true hab)
  · intro g hg
    have hg' : g ∈ specGapList entries τ := hperm.mem_iff.mp hg
    rw [specGapList] at hg'
    obtain ⟨i, hif, rfl⟩ := List.mem_map.mp hg'
    have hcond := (List.mem_filter.mp hif).2
    refine ⟨rfl, ?_⟩
    exact of_decide_eq_true hcond

/-! ## process.py: the background splice (lines 160-197)

```python
for i in range(start_segment):                      # originals before [a, b)
    copy original/segment{i:03d}.ts -> segments/segment{i:03d}.ts
for i in range(edited_segment_count):               # the edited set
    copy edited_hls/segment{i:03d}.ts -> segments/segment{start_segment+i:03d}.ts
new_end_segment = start_segment + edited_segment_count
for i in range(remaining_start, total_segments):    # originals from b on
    copy original/segment{i:03d}.ts
         -> segments/segment{new_end_segment + (i - remaining_start):03d}.ts
segment_count = start_segment + edited_segment_count + (total_segments - remaining_start)
```

A directory of segments is modelled as the list of its files in index
order: `segment{i:03d}.ts` of directory `D` exists iff `i < D.length` and
has content `D[i]` (the `if os.path.exists(src)` guards are the `Option`
lookups).  `spliceWrites` records the copies as `(destination index,
content)` pairs in execution order; since each destination is written at
most once, this list determines the resulting `segments/` directory.
-/

/-- The copies performed by the splice loops, in order, with
`a = start_segment`, `b = remaining_start = end_segment`,
`E.length = edited_segment_count` and `O.length = total_segments`. -/
def spliceWrites (O E : List α) (a b : ℕ) : List (ℕ × α) :=
  ((List.range a).filterMap (fun i => (O[i]?).map (fun s => (i, s)))) ++
    ((List.range E.length).filterMap (fun i => (E[i]?).map (fun s => (a + i, s)))) ++
    ((List.range' b (O.length - b)).filterMap
      (fun i => (O[i]?).map (fun s => (a + E.length + (i - b), s))))

/-- The updated `hls_info["segment_count"]`. -/
def spliceCount (start_segment edited_segment_count total_segments remaining_start : ℤ) : ℤ :=
  start_segment + edited_segment_count + (total_segments - remaining_start)

theorem enumFrom_map_addLeft (l : List α) (n : ℕ) :
    ∀ m, (l.enumFrom m).map (fun p => (n + p.1, p.2)) = l.enumFrom (n + m) := by
  induction l with
  | nil => intro m; rfl
  | cons a t ih =>
    intro m
    simp only [List.enumFrom_cons, List.map_cons, ih (m + 1)]
    rw [show n + (m + 1) = n + m + 1 by omega]

theorem enum_map_addLeft (l : List α) (n : ℕ) :
    l.enum.map (fun p => (n + p.1, p.2)) = l.enumFrom n := by
  show (l.enumFrom 0).map (fun p => (n + p.1, p.2)) = l.enumFrom n
  rw [enumFrom_map_addLeft l n 0, Nat.add_zero]

/-- The splice writes enumerate the merged list `O[0..a) ++ E ++ O[b..N)`
with contiguous destination indices `0, 1, …`. -/
theorem spliceWrites_eq_enum (O E : List α) (a b : ℕ) (hab : a ≤ b) (hbN : b ≤ O.length) :
    spliceWrites O E a b = (O.take a ++ E ++ O.drop b).enum := by
  have haN : a ≤ O.length := le_trans hab hbN
  have p1 : (List.range a).filterMap (fun i => (O[i]?).map (fun s => (i, s))) =
      (O.take a).enum := by
    rw [filterMap_range_getElem O (fun i s => (i, s)) a]
    simp
  have p2 : (List.range E.length).filterMap (fun i => (E[i]?).map (fun s => (a + i, s))) =
      E.enumFrom a := by
    rw [filterMap_range_getElem E (fun i s => (a + i, s)) E.length, List.take_length]
    exact enum_map_addLeft E a
  have p3 : (List.range' b (O.length - b)).filterMap
      (fun i => (O[i]?).map (fun s => (a + E.length + (i - b), s))) =
      (O.drop b).enumFrom (a + E.length) := by
    rw [List.range'_eq_map_range, List.filterMap_map]
    have step : ∀ j, ((fun i => (O[i]?).map (fun s => (a + E.length + (i - b), s))) ∘ (b + ·)) j =
        ((O.drop b)[j]?).map ((fun j s => (a + E.length + j, s)) j) := by
      intro j
      simp [List.getElem?_drop, Nat.add_sub_cancel_left]
    rw [List.filterMap_congr (fun j _ => step j),
      show O.length - b = (O.drop b).length by rw [List.length_drop]]
    rw [filterMap_range_getElem (O.drop b) (fun j s => (a + E.length + j, s)), List.take_length]
    exact enum_map_addLeft (O.drop b) (a + E.length)
  rw [spliceWrites, p1, p2, p3]
  rw [enum_append (O.take a ++ E) (O.drop b), enum_append (O.take a) E]
  rw [List.length_append, List.length_take, Nat.min_eq_left haN]

/-- C1: for `0 ≤ a ≤ b ≤ N = |O|`, the splice step produces exactly the
merged list `M = O[0..a) ++ E ++ O[b..N)`: destination index `j` receives
`M[j]`, the destination indices are contiguously `0..|M|−1`, and the
recorded segment count is `a + K + (N − b)` with `K = |E|`. -/
theorem C1_splice_merged (O E : List α) (a b : ℕ) (hab : a ≤ b) (hbN : b ≤ O.length) :
    spliceWrites O E a b = (O.take a ++ E ++ O.drop b).enum ∧
      (spliceWrites O E a b).map Prod.snd = O.take a ++ E ++ O.drop b ∧
      (spliceWrites O E a b).map Prod.fst = List.range (a + E.length + (O.length - b)) ∧
      spliceCount (a : ℤ) (E.length : ℤ) (O.length : ℤ) (b : ℤ) =
        ((a + E.length + (O.length - b) : ℕ) : ℤ) := by
  have h := spliceWrites_eq_enum O E a b hab hbN
  have hlen : (O.take a ++ E ++ O.drop b).length = a + E.length + (O.length - b) := by
    simp [List.length_append, List.length_take, List.length_drop,
      Nat.min_eq_left (le_trans hab hbN)]
    omega
  refine ⟨h, ?_, ?_, ?_⟩
  · rw [h]
    show ((O.take a ++ E ++ O.drop b).enumFrom 0).map Prod.snd = _
    rw [List.enumFrom_map_snd]
  · rw [h]
    show ((O.take a ++ E ++ O.drop b).enumFrom 0).map Prod.fst = _
    rw [List.enumFrom_map_fst, hlen, List.range_eq_range']
  · rw [spliceCount]
    omega

/-- C1 witness: splicing `E = [7, 8]` into `O = [10, 20, 30]` over the range
`[1, 2)`. -/
theorem C1_splice_merged_witness :
    1 ≤ 2 ∧ 2 ≤ ([10, 20, 30] : List ℕ).length ∧
      (spliceWrites [10, 20, 30] [7, 8] 1 2 =
          (([10, 20, 30] : List ℕ).take 1 ++ [7, 8] ++ ([10, 20, 30] : List ℕ).drop 2).enum ∧
        (spliceWrites [10, 20, 30] [7, 8] 1 2).map Prod.snd =
          ([10, 20, 30] : List ℕ).take 1 ++ [7, 8] ++ ([10, 20, 30] : List ℕ).drop 2 ∧
        (spliceWrites [10, 20, 30] [7, 8] 1 2).map Prod.fst =
          List.range (1 + ([7, 8] : List ℕ).length + (([10, 20, 30] : List ℕ).length - 2)) ∧
        spliceCount 1 (([7, 8] : List ℕ).length : ℤ) (([10, 20, 30] : List ℕ).length : ℤ) 2 =
          ((1 + ([7, 8] : List ℕ).length + (([10, 20, 30] : List ℕ).length - 2) : ℕ) : ℤ)) :=
  ⟨by decide, by decide, C1_splice_merged [10, 20, 30] [7, 8] 1 2 (by decide) (by decide)⟩

/-- C7: when `|E| = b − a` and `E[i] = O[a+i]` for every `i < |E|`, the
splice reproduces `O` exactly (same contents at the same indices). -/
theorem C7_splice_identity (O E : List α) (a b : ℕ) (hab : a ≤ b) (hbN : b ≤ O.length)
    (hK : E.length = b - a) (hE : ∀ i, i < E.length → E[i]? = O[a + i]?) :
    spliceWrites O E a b = O.enum ∧ (spliceWrites O E a b).map Prod.snd = O := by
  have hlenE : ((O.take b).drop a).length = E.length := by
    rw [List.length_drop, List.length_take, Nat.min_eq_left hbN, hK]
  have hEeq : E = (O.take b).drop a := by
    apply List.ext_getElem?
    intro n
    by_cases hn : n < E.length
    · rw [hE n hn, List.getElem?_drop, List.getElem?_take_of_lt (by omega)]
    · rw [List.getElem?_eq_none (by omega), List.getElem?_eq_none (by omega)]
  have hO : O.take a ++ (O.take b).drop a ++ O.drop b = O := by
    have h1 : O.take a = (O.take b).take a := by
      rw [List.take_take, Nat.min_eq_left hab]
    rw [h1, List.take_append_drop a (O.take b), List.take_append_drop b O]
  subst hEeq
  have h := spliceWrites_eq_enum O ((O.take b).drop a) a b hab hbN
  rw [hO] at h
  refine ⟨h, ?_⟩
  rw [h]
  show (O.enumFrom 0).map Prod.snd = O
  rw [List.enumFrom_map_snd]

/-- C7 witness: `O = [5, 6, 7]`, `a = 1`, `b = 2`, `E = [6]`. -/
theorem C7_splice_identity_witness :
    1 ≤ 2 ∧ 2 ≤ ([5, 6, 7] : List ℕ).length ∧ ([6] : List ℕ).length = 2 - 1 ∧
      (∀ i, i < ([6] : List ℕ).length → ([6] : List ℕ)[i]? = ([5, 6, 7] : List ℕ)[1 + i]?) ∧
      (spliceWrites [5, 6, 7] [6] 1 2 = ([5, 6, 7] : List ℕ).enum ∧
        (spliceWrites [5, 6, 7] [6] 1 2).map Prod.snd = [5, 6, 7]) :=
  ⟨by decide, by decide, by decide, by decide,
    C7_splice_identity [5, 6, 7] [6] 1 2 (by decide) (by decide) (by decide) (by decide)⟩

/-! ## ad_placement.py: buffer-window derivation
(`analyze` lines 133-141, `analyze_multipass` lines 289-297)

```python
insertion_seconds = timestamp_to_seconds(insertion_point)
buffer_start = seconds_to_timestamp(max(0, insertion_seconds - buffer_before))
buffer_end = seconds_to_timestamp(insertion_seconds + buffer_after)
```

No `min` against the media duration is applied to `buffer_end` in either
analysis path.
-/

/-- The derived buffer start, `max(0, insertion_seconds - buffer_before)`. -/
def bufferStartCalc (insertion_seconds buffer_before : ℚ) : ℚ :=
  max 0 (insertion_seconds - buffer_before)

/-- The derived buffer end, `insertion_seconds + buffer_after`. -/
def bufferEndCalc (insertion_seconds buffer_after : ℚ) : ℚ :=
  insertion_seconds + buffer_after

/-- The buffer timestamps `analyze_multipass` computes from the selected
candidate's `insertion_point` string; the fallbacks model the
`except ValueError` branch. -/
def deriveBufferTimestamps (insertion_point : String) (buffer_before buffer_after : ℚ)
    (fallback_start fallback_end : String) : String × String :=
  match timestamp_to_seconds insertion_point with
  | some insertion_seconds =>
    (seconds_to_timestamp (bufferStartCalc insertion_seconds buffer_before),
      seconds_to_timestamp (bufferEndCalc insertion_seconds buffer_after))
  | none => (fallback_start, fallback_end)

/-- C2 counterexample: at `insertion_point = 5`, `buffer_after = 3`,
`media_duration = 6`, the code derives `buffer_end = 8`, not
`min(media_duration, i + buffer_after) = 6`: the claimed clamp to
`media_duration` does not exist in the code. -/
theorem C2_buffer_end_unclamped_counterexample :
    bufferStartCalc 5 10 = max 0 ((5 : ℚ) - 10) ∧
      bufferEndCalc 5 3 ≠ min 6 ((5 : ℚ) + 3) := by
  refine ⟨rfl, ?_⟩
  rw [bufferEndCalc]
  norm_num

/-- C2 amended: for nonnegative insertion point and buffer widths, the
derived window satisfies `buffer_start = max(0, i − buffer_before)` and
`buffer_end = i + buffer_after` (no clamp to `media_duration`; a placement
near the media end yields `buffer_end > media_duration`), with
`0 ≤ buffer_start ≤ i ≤ buffer_end`. -/
theorem C2_buffer_window (i before after : ℚ) (hi : 0 ≤ i) (hb : 0 ≤ before) (ha : 0 ≤ after) :
    bufferStartCalc i before = max 0 (i - before) ∧
      bufferEndCalc i after = i + after ∧
      0 ≤ bufferStartCalc i before ∧
      bufferStartCalc i before ≤ i ∧
      i ≤ bufferEndCalc i after := by
  refine ⟨rfl, rfl, le_max_left 0 _, ?_, ?_⟩
  · rw [bufferStartCalc]
    exact max_le hi (by linarith)
  · rw [bufferEndCalc]
    linarith

/-- C2 witness: the window at `i = 2`, `buffer_before = 10`,
`buffer_after = 3`. -/
theorem C2_buffer_window_witness :
    (0 : ℚ) ≤ 2 ∧ (0 : ℚ) ≤ 10 ∧ (0 : ℚ) ≤ 3 ∧
      (bufferStartCalc 2 10 = max 0 ((2 : ℚ) - 10) ∧
        bufferEndCalc 2 3 = (2 : ℚ) + 3 ∧
        0 ≤ bufferStartCalc 2 10 ∧
        bufferStartCalc 2 10 ≤ 2 ∧
        (2 : ℚ) ≤ bufferEndCalc 2 3) :=
  ⟨by norm_num, by norm_num, by norm_num,
    C2_buffer_window 2 10 3 (by norm_num) (by norm_num) (by norm_num)⟩

/-! ## ad_placement.py: visual candidate selection (lines 282-287)

```python
selected_idx = selection.get("selected_index", 0)
if selected_idx >= len(candidates):
    selected_idx = 0
selected = candidates[selected_idx]
```

Only an index at or above `len(candidates)` is clamped to 0.  Python list
indexing accepts negative indices (`-1` is the last element) and raises
`IndexError` below `-len(candidates)`.
-/

/-- Python list indexing `l[i]` with negative-index semantics; `none`
models the `IndexError`. -/
def pyIndex (l : List α) (i : ℤ) : Option α :=
  if 0 ≤ i then l[i.toNat]?
  else if i.natAbs ≤ l.length then l[l.length - i.natAbs]? else none

/-- The candidate `analyze_multipass` selects for a visual-selection result
`selected_index`. -/
def chooseCandidate (candidates : List α) (selected_index : ℤ) : Option α :=
  let idx := if (candidates.length : ℤ) ≤ selected_index then 0 else selected_index
  pyIndex candidates idx

/-- C8 counterexample: with two candidates and `selected_index = -1` (out of
the valid range `0..n−1`), the chosen candidate is the one at index 1 (the
last), not the one at index 0: negative indices are not clamped. -/
theorem C8_negative_index_counterexample :
    ([0, 1] : List ℕ) ≠ [] ∧ (-1 : ℤ) < 0 ∧
      chooseCandidate ([0, 1] : List ℕ) (-1) = some 1 ∧
      chooseCandidate ([0, 1] : List ℕ) (-1) ≠ ([0, 1] : List ℕ)[0]? := by
  decide

/-- C8 amended: for a nonempty candidate list of length `n`, a
`selected_index ≥ n` is clamped to 0; a `selected_index` in `[−n, 0)` picks
the candidate at position `n − |selected_index|` by Python negative
indexing; below `−n` the lookup raises; and an in-range index is used as
is. -/
theorem C8_selected_index_handling (l : List α) (i : ℤ) (_hl : l ≠ []) :
    ((l.length : ℤ) ≤ i → chooseCandidate l i = l[0]?) ∧
      (i < 0 → -(l.length : ℤ) ≤ i → chooseCandidate l i = l[l.length - i.natAbs]?) ∧
      (i < -(l.length : ℤ) → chooseCandidate l i = none) ∧
      (0 ≤ i → i < (l.length : ℤ) → chooseCandidate l i = l[i.toNat]?) := by
  refine ⟨?_, ?_, ?_, ?_⟩
  · intro h
    simp [chooseCandidate, pyIndex, h]
  · intro h1 h2
    have hn : ¬ ((l.length : ℤ) ≤ i) := by omega
    have h0 : ¬ ((0 : ℤ) ≤ i) := by omega
    have habs : i.natAbs ≤ l.length := by omega
    simp [chooseCandidate, pyIndex, hn, h0, habs]
  · intro h1
    have hn : ¬ ((l.length : ℤ) ≤ i) := by omega
    have h0 : ¬ ((0 : ℤ) ≤ i) := by omega
    have habs : ¬ (i.natAbs ≤ l.length) := by omega
    simp [chooseCandidate, pyIndex, hn, h0, habs]
  · intro h0 h1
    have hn : ¬ ((l.length : ℤ) ≤ i) := by omega
    simp [chooseCandidate, pyIndex, hn, h0]

/-- C8 witness: the amended behaviour at the concrete list `[3, 4, 5]` and
index `7`. -/
theorem C8_selected_index_handling_witness :
    ([3, 4, 5] : List ℕ) ≠ [] ∧
      ((([3, 4, 5] : List ℕ).length : ℤ) ≤ 7 →
        chooseCandidate ([3, 4, 5] : List ℕ) 7 = ([3, 4, 5] : List ℕ)[0]?) ∧
      ((7 : ℤ) < 0 → -(([3, 4, 5] : List ℕ).length : ℤ) ≤ 7 →
        chooseCandidate ([3, 4, 5] : List ℕ) 7 =
          ([3, 4, 5] : List ℕ)[([3, 4, 5] : List ℕ).length - (7 : ℤ).natAbs]?) ∧
      ((7 : ℤ) < -(([3, 4, 5] : List ℕ).length : ℤ) →
        chooseCandidate ([3, 4, 5] : List ℕ) 7 = none) ∧
      ((0 : ℤ) ≤ 7 → (7 : ℤ) < (([3, 4, 5] : List ℕ).length : ℤ) →
        chooseCandidate ([3, 4, 5] : List ℕ) 7 = ([3, 4, 5] : List ℕ)[(7 : ℤ).toNat]?) :=
  ⟨by decide, (C8_selected_index_handling [3, 4, 5] 7 (by decide)).1,
    (C8_selected_index_handling [3, 4, 5] 7 (by decide)).2.1,
    (C8_selected_index_handling [3, 4, 5] 7 (by decide)).2.2.1,
    (C8_selected_index_handling [3, 4, 5] 7 (by decide)).2.2.2⟩

/-! ## process.py / playlist.py: job records and the HTTP endpoints

A job record is the in-memory `processing_jobs[job_id]` dict; optional
fields model keys that may be absent.  `edited_segments` records whether the
`"edited_segments"` key holds a truthy value.  The registry is the
association list `jobs`; `List.lookup` is the dict lookup.
-/

structure Job where
  status : String
  progress : Option ℕ
  user_id : Option String
  error : Option String
  completed_at : Option String
  edited_segments : Bool
  hls_segment_count : ℕ
  hls_segment_duration : ℕ
deriving DecidableEq, Repr

/-- A JSON-ish value in a response dict. -/
inductive JVal where
  | s (v : String)
  | n (v : ℕ)
  | null
deriving DecidableEq, Repr

/-- `f"/api/v1/videos/playlist/{job_id}.m3u8"`. -/
def playlistUrl (job_id : String) : String :=
  "/api/v1/videos/playlist/" ++ job_id ++ ".m3u8"

/-- Responses of `get_processing_status` (process.py lines 266-305). -/
inductive StatusResp where
  | notFound
  | forbidden
  | ok (fields : List (String × JVal))
deriving DecidableEq, Repr

/-- The response dict built at process.py lines 293-305: base keys always,
`error` only for `failed` (with default `"Unknown error"`), `completed_at`
only for `completed` (possibly `None`). -/
def statusFields (job_id : String) (job : Job) : List (String × JVal) :=
  [("status", JVal.s job.status), ("progress", JVal.n (job.progress.getD 0)),
    ("playlist_url", JVal.s (playlistUrl job_id))] ++
    (if job.status = "failed" then [("error", JVal.s (job.error.getD "Unknown error"))]
      else []) ++
    (if job.status = "completed" then
      [("completed_at", match job.completed_at with | some c => JVal.s c | none => JVal.null)]
      else [])

/-- Embeds `get_processing_status`: 404 for unknown jobs, 403 for a
non-owner, otherwise the response dict. -/
def get_processing_status (jobs : List (String × Job)) (job_id : String) (uid : String) :
    StatusResp :=
  match List.lookup job_id jobs with
  | none => StatusResp.notFound
  | some job =>
    if job.user_id ≠ some uid then StatusResp.forbidden
    else StatusResp.ok (statusFields job_id job)

/-- C10: for every known job queried by its owner, the status response has
the `error` key iff the job is `failed`, the `completed_at` key iff
`completed`, and always has `status`, `progress` and `playlist_url`. -/
theorem C10_status_response_keys (jobs : List (String × Job)) (job_id uid : String) (job : Job)
    (hj : List.lookup job_id jobs = some job) (ho : job.user_id = some uid) :
    get_processing_status jobs job_id uid = StatusResp.ok (statusFields job_id job) ∧
      (("error" ∈ (statusFields job_id job).map Prod.fst) ↔ job.status = "failed") ∧
      (("completed_at" ∈ (statusFields job_id job).map Prod.fst) ↔ job.status = "completed") ∧
      "status" ∈ (statusFields job_id job).map Prod.fst ∧
      "progress" ∈ (statusFields job_id job).map Prod.fst ∧
      "playlist_url" ∈ (statusFields job_id job).map Prod.fst := by
  refine ⟨?_, ?_, ?_, ?_, ?_, ?_⟩
  · rw [get_processing_status, hj]
    show (if job.user_id ≠ some uid then StatusResp.forbidden
      else StatusResp.ok (statusFields job_id job)) = _
    rw [if_neg (by rw [ho]; simp)]
  · rw [statusFields]
    by_cases hf : job.status = "failed"
    · simp [hf]
    · have hc' : job.status = "completed" → True := fun _ => trivial
      by_cases hc : job.status = "completed" <;> simp [hf, hc]
  · rw [statusFields]
    by_cases hc : job.status = "completed"
    · simp [hc]
    · by_cases hf : job.status = "failed" <;> simp [hf, hc]
  · rw [statusFields]; simp
  · rw [statusFields]; simp
  · rw [statusFields]; simp

/-- C10 witness: a completed job owned by `u1`. -/
theorem C10_status_response_keys_witness :
    List.lookup "j1" [("j1", Job.mk "completed" (some 100) (some "u1") none
        (some "t") true 5 10)] =
      some (Job.mk "completed" (some 100) (some "u1") none (some "t") true 5 10) ∧
    (Job.mk "completed" (some 100) (some "u1") none (some "t") true 5 10).user_id = some "u1" ∧
      (get_processing_status [("j1", Job.mk "completed" (some 100) (some "u1") none
          (some "t") true 5 10)] "j1" "u1" =
        StatusResp.ok (statusFields "j1" (Job.mk "completed" (some 100) (some "u1") none
          (some "t") true 5 10)) ∧
      (("error" ∈ (statusFields "j1" (Job.mk "completed" (some 100) (some "u1") none
          (some "t") true 5 10)).map Prod.fst) ↔
        (Job.mk "completed" (some 100) (some "u1") none (some "t") true 5 10).status =
          "failed") ∧
      (("completed_at" ∈ (statusFields "j1" (Job.mk "completed" (some 100) (some "u1") none
          (some "t") true 5 10)).map Prod.fst) ↔
        (Job.mk "completed" (some 100) (some "u1") none (some "t") true 5 10).status =
          "completed") ∧
      "status" ∈ (statusFields "j1" (Job.mk "completed" (some 100) (some "u1") none
        (some "t") true 5 10)).map Prod.fst ∧
      "progress" ∈ (statusFields "j1" (Job.mk "completed" (some 100) (some "u1") none
        (some "t") true 5 10)).map Prod.fst ∧
      "playlist_url" ∈ (statusFields "j1" (Job.mk "completed" (some 100) (some "u1") none
        (some "t") true 5 10)).map Prod.fst) :=
  ⟨by decide, by decide,
    C10_status_response_keys _ "j1" "u1" _ (by decide) (by decide)⟩

/-! ## playlist.py: `get_playlist` (lines 17-86) and
`generate_updated_playlist` (lines 89-139)

The on-disk state a request observes is modelled by `JobFs`:
`segments/playlist.m3u8` and `original/playlist.m3u8` as optional line
lists (`none` when the file does not exist), and per-index existence of the
merged segment files for the generation loop.
-/

structure JobFs where
  segments_playlist : Option (List String)
  original_playlist : Option (List String)
  merged_seg_exists : ℕ → Bool

inductive PlaylistResp where
  | notFound (detail : String)
  | forbidden
  | file (lines : List String)
deriving DecidableEq, Repr

/-- Whether a response is a 404. -/
def isNotFound : PlaylistResp → Bool
  | PlaylistResp.notFound _ => true
  | _ => false

/-- `str.startswith` on character lists. -/
def listStartsWith (pre cs : List Char) : Bool :=
  cs.take pre.length == pre

/-- `str.endswith` on character lists. -/
def listEndsWith (suf cs : List Char) : Bool :=
  decide (suf.length ≤ cs.length) && (cs.drop (cs.length - suf.length) == suf)

/-- `os.path.basename` for the forward-slash paths the playlist holds: the
part after the last `/`. -/
def basename (cs : List Char) : List Char :=
  cs.foldl (fun acc c => if c = '/' then [] else acc ++ [c]) []

/-- The URL-rewriting step of the processing view (playlist.py lines 64-72):
a stripped non-comment `.ts` line becomes a segment-endpoint URL. -/
def rewriteLine (job_id : String) (line : String) : String :=
  let l := pyStrip line.data
  if !(l == []) && !(listStartsWith ['#'] l) && listEndsWith ".ts".data l then
    "/api/v1/videos/segments/" ++ job_id ++ "/" ++ String.mk (basename l)
  else String.mk l

/-- `f"segment{i:03d}.ts"`. -/
def segName (i : ℕ) : String :=
  "segment" ++ padInt 3 (i : ℤ) ++ ".ts"

/-- `f"{target_duration:.3f}"` for the integer-valued target duration the
job records. -/
def fmt3Nat (n : ℕ) : String :=
  natDec n ++ ".000"

/-- The playlist `generate_updated_playlist` writes: header, one
`#EXTINF`/URL pair per existing merged segment, `#EXT-X-ENDLIST`. -/
def genPlaylistLines (job : Job) (job_id : String) (fs : JobFs) : List String :=
  ["#EXTM3U", "#EXT-X-VERSION:3",
    "#EXT-X-TARGETDURATION:" ++ natDec job.hls_segment_duration,
    "#EXT-X-MEDIA-SEQUENCE:0"] ++
    ((List.range job.hls_segment_count).flatMap (fun i =>
      if fs.merged_seg_exists i then
        ["#EXTINF:" ++ fmt3Nat job.hls_segment_duration ++ ",",
          "/api/v1/videos/segments/" ++ job_id ++ "/" ++ segName i]
      else [])) ++
    ["#EXT-X-ENDLIST"]

/-- Embeds `get_playlist`: 404 for unknown jobs, 403 for non-owners; for a
`completed` job with edits, the merged playlist (generated if absent);
otherwise the original playlist with rewritten segment URLs, or 404 when
the original playlist file does not exist. -/
def get_playlist (jobs : List (String × Job)) (job_id : String) (uid : String) (fs : JobFs) :
    PlaylistResp :=
  match List.lookup job_id jobs with
  | none => PlaylistResp.notFound "Job not found"
  | some job =>
    if job.user_id ≠ some uid then PlaylistResp.forbidden
    else if job.status = "completed" ∧ job.edited_segments = true then
      match fs.segments_playlist with
      | some lines => PlaylistResp.file lines
      | none => PlaylistResp.file (genPlaylistLines job job_id fs)
    else
      match fs.original_playlist with
      | none => PlaylistResp.notFound "Playlist not found. Video may still be processing."
      | some lines => PlaylistResp.file (lines.map (rewriteLine job_id))

/-- C3 counterexample: a `failed` job whose `original/playlist.m3u8` exists
is served that playlist (with rewritten URLs) with status 200 — not 404.
The endpoint 404s on a failed job only when the original playlist file is
missing. -/
theorem C3_failed_playlist_counterexample :
    (Job.mk "failed" (some 60) (some "u1") (some "boom") none false 5 10).status = "failed" ∧
      get_playlist
          [("j1", Job.mk "failed" (some 60) (some "u1") (some "boom") none false 5 10)]
          "j1" "u1" (JobFs.mk none (some ["#EXTM3U", "segment000.ts"]) (fun _ => false)) =
        PlaylistResp.file ["#EXTM3U", "/api/v1/videos/segments/j1/segment000.ts"] ∧
      isNotFound (get_playlist
          [("j1", Job.mk "failed" (some 60) (some "u1") (some "boom") none false 5 10)]
          "j1" "u1" (JobFs.mk none (some ["#EXTM3U", "segment000.ts"]) (fun _ => false))) =
        false := by
  refine ⟨rfl, ?_, ?_⟩ <;> decide

/-- C3 amended: for a `failed` job queried by its owner, the playlist
endpoint returns 404 exactly when `original/playlist.m3u8` does not exist;
when it exists, the endpoint serves the original playlist with its segment
URLs rewritten (it does not 404). -/
theorem C3_failed_playlist_behaviour (jobs : List (String × Job)) (job_id uid : String)
    (fs : JobFs) (job : Job) (hj : List.lookup job_id jobs = some job)
    (ho : job.user_id = some uid) (hf : job.status = "failed") :
    (fs.original_playlist = none →
      get_playlist jobs job_id uid fs =
        PlaylistResp.notFound "Playlist not found. Video may still be processing.") ∧
      (∀ lines, fs.original_playlist = some lines →
        get_playlist jobs job_id uid fs = PlaylistResp.file (lines.map (rewriteLine job_id))) := by
  have hmain : get_playlist jobs job_id uid fs =
      match fs.original_playlist with
      | none => PlaylistResp.notFound "Playlist not found. Video may still be processing."
      | some lines => PlaylistResp.file (lines.map (rewriteLine job_id)) := by
    rw [get_playlist, hj]
    show (if job.user_id ≠ some uid then PlaylistResp.forbidden
      else if job.status = "completed" ∧ job.edited_segments = true then _ else _) = _
    rw [if_neg (by rw [ho]; simp), if_neg (by rintro ⟨h1, -⟩; rw [hf] at h1; exact absurd h1 (by decide))]
  constructor
  · intro h
    rw [hmain, h]
  · intro lines h
    rw [hmain, h]

/-- C3 witness: the amended behaviour for a concrete failed job with an
existing original playlist. -/
theorem C3_failed_playlist_behaviour_witness :
    List.lookup "j1" [("j1", Job.mk "failed" (some 60) (some "u1") (some "boom") none false 5 10)] =
      some (Job.mk "failed" (some 60) (some "u1") (some "boom") none false 5 10) ∧
    (Job.mk "failed" (some 60) (some "u1") (some "boom") none false 5 10).user_id = some "u1" ∧
    (Job.mk "failed" (some 60) (some "u1") (some "boom") none false 5 10).status = "failed" ∧
      (((JobFs.mk none (some ["seg.ts"]) (fun _ => false)).original_playlist = none →
        get_playlist [("j1", Job.mk "failed" (some 60) (some "u1") (some "boom") none false 5 10)]
            "j1" "u1" (JobFs.mk none (some ["seg.ts"]) (fun _ => false)) =
          PlaylistResp.notFound "Playlist not found. Video may still be processing.") ∧
      (∀ lines, (JobFs.mk none (some ["seg.ts"]) (fun _ => false)).original_playlist = some lines →
        get_playlist [("j1", Job.mk "failed" (some 60) (some "u1") (some "boom") none false 5 10)]
            "j1" "u1" (JobFs.mk none (some ["seg.ts"]) (fun _ => false)) =
          PlaylistResp.file (lines.map (rewriteLine "j1")))) :=
  ⟨by decide, by decide, rfl,
    C3_failed_playlist_behaviour
      [("j1", Job.mk "failed" (some 60) (some "u1") (some "boom") none false 5 10)]
      "j1" "u1" (JobFs.mk none (some ["seg.ts"]) (fun _ => false))
      (Job.mk "failed" (some 60) (some "u1") (some "boom") none false 5 10)
      (by decide) (by decide) rfl⟩

/-! ## analytics.py: the five event endpoints (lines 81-189)

Each handler stamps `user_id` from the optional auth context, defaults the
timestamp to `datetime.now()`, and returns
`{"success": True, "event_id": f"<tag>_{ad_id}_{int(ts)}", "message": ...}`
with tags `imp`, `click`, `view`, `conv`, `dismiss`.  Only `ad_id` and the
timestamps flow into the response, so the embedding keeps just those (the
caller's clock is the `now` parameter).
-/

structure TrackResp where
  success : Bool
  event_id : String
  message : String
deriving DecidableEq, Repr

def track_impression (ad_id : String) (timestamp : Option ℤ) (now : ℤ) : TrackResp :=
  let ts := timestamp.getD now
  TrackResp.mk true ("imp_" ++ ad_id ++ "_" ++ intDec ts) "Impression tracked"

def track_click (ad_id : String) (timestamp : Option ℤ) (now : ℤ) : TrackResp :=
  let ts := timestamp.getD now
  TrackResp.mk true ("click_" ++ ad_id ++ "_" ++ intDec ts) "Click tracked"

def track_view (ad_id : String) (timestamp : Option ℤ) (now : ℤ) : TrackResp :=
  let ts := timestamp.getD now
  TrackResp.mk true ("view_" ++ ad_id ++ "_" ++ intDec ts) "View tracked"

def track_conversion (ad_id : String) (timestamp : Option ℤ) (now : ℤ) : TrackResp :=
  let ts := timestamp.getD now
  TrackResp.mk true ("conv_" ++ ad_id ++ "_" ++ intDec ts) "Conversion tracked"

def track_dismissal (ad_id : String) (timestamp : Option ℤ) (now : ℤ) : TrackResp :=
  let ts := timestamp.getD now
  TrackResp.mk true ("dismiss_" ++ ad_id ++ "_" ++ intDec ts) "Dismissal tracked"

inductive EventKind where
  | impression
  | click
  | view
  | conversion
  | dismissal
deriving DecidableEq, Repr

/-- Dispatch to the five handlers. -/
def trackEvent : EventKind → String → Option ℤ → ℤ → TrackResp
  | EventKind.impression => track_impression
  | EventKind.click => track_click
  | EventKind.view => track_view
  | EventKind.conversion => track_conversion
  | EventKind.dismissal => track_dismissal

/-- The event-kind names as the spec's claim uses them. -/
def kindName : EventKind → String
  | EventKind.impression => "impression"
  | EventKind.click => "click"
  | EventKind.view => "view"
  | EventKind.conversion => "conversion"
  | EventKind.dismissal => "dismissal"

/-- The tags the code actually uses in `event_id`. -/
def kindTag : EventKind → String
  | EventKind.impression => "imp"
  | EventKind.click => "click"
  | EventKind.view => "view"
  | EventKind.conversion => "conv"
  | EventKind.dismissal => "dismiss"

/-- C9 counterexample: a successful impression POST returns
`event_id = "imp_<ad_id>_<unix_ts>"`, not
`"impression_<ad_id>_<unix_ts>"` as the claim's `<kind>_<ad_id>_<unix_ts>`
format requires (likewise `conv` for conversion and `dismiss` for
dismissal). -/
theorem C9_event_id_kind_counterexample :
    (trackEvent EventKind.impression "ad1" (some 5) 0).success = true ∧
      (trackEvent EventKind.impression "ad1" (some 5) 0).event_id = "imp_ad1_5" ∧
      (trackEvent EventKind.impression "ad1" (some 5) 0).event_id ≠
        kindName EventKind.impression ++ "_" ++ "ad1" ++ "_" ++
          intDec ((some (5 : ℤ)).getD 0) := by
  refine ⟨rfl, ?_, ?_⟩ <;> decide

/-- C9 amended: every successful event POST returns `success = true` and
`event_id = "<tag>_<ad_id>_<unix_ts>"`, where `<tag>` is the kind-specific
abbreviation `imp`/`click`/`view`/`conv`/`dismiss` and `<unix_ts>` the
submitted (or server-stamped) integer Unix timestamp. -/
theorem C9_event_response (k : EventKind) (ad_id : String) (timestamp : Option ℤ) (now : ℤ) :
    (trackEvent k ad_id timestamp now).success = true ∧
      (trackEvent k ad_id timestamp now).event_id =
        kindTag k ++ "_" ++ ad_id ++ "_" ++ intDec (timestamp.getD now) := by
  cases k <;> exact ⟨rfl, rfl⟩

end Halftime
